import Mathlib

/-!
Verification of the ad-linter chunking engine and retrieval layer.

The definitions below are a shallow embedding of the TypeScript sources:
  * `src/data/chunkers/law.ts`       (law chunks, shared merge pass)
  * `src/data/chunkers/guideline.ts` (guideline chunks, section split,
                                      sliding-window split, merge pass, renumbering)
  * `src/data/chunkers/qa.ts`        (qa chunk shape)
  * `src/retrieval/vectorStore.ts`   (row flattening, result decoding,
                                      source validation, multi-source search,
                                      document counting)

JS strings are modelled as Lean `String`s: all string data in this system is
BMP text, where JS code-unit indices/lengths coincide with character counts.
-/

namespace AdLinter

/-- JS `a || b` on optional strings: `undefined` and `""` are falsy. -/
def jsOrStr (a b : Option String) : Option String :=
  match a with
  | some s => if s = "" then b else some s
  | none => b

/-- The `chunkType: "article" | "paragraph" | "item"` from `law.ts`. -/
inductive LawChunkType
  | article
  | paragraph
  | item
deriving DecidableEq, Repr

/-- Metadata of a `LawChunk` (`law.ts`, interface `LawChunk.metadata`);
the constant `source: "law"` discriminant is implicit in the type. -/
structure LawMeta where
  lawId : String
  lawTitle : String
  articleNumber : String
  articleTitle : Option String
  paragraphNumber : Option Nat
  itemNumber : Option String
  chunkType : LawChunkType
deriving DecidableEq, Repr

/-- The `LawChunk` from `law.ts`. -/
structure LawChunk where
  id : String
  content : String
  metadata : LawMeta
deriving DecidableEq, Repr

/-- Metadata of a `GuidelineChunk` (`guideline.ts`);
the constant `source: "guideline"` discriminant is implicit in the type. -/
structure GuidelineMeta where
  filename : String
  title : Option String
  pageNumber : Option Nat
  sectionTitle : Option String
  chunkIndex : Nat
deriving DecidableEq, Repr

/-- The `GuidelineChunk` from `guideline.ts`. -/
structure GuidelineChunk where
  id : String
  content : String
  metadata : GuidelineMeta
deriving DecidableEq, Repr

/-- The `qaSource` enum from `loaders/qa.ts` / `chunkers/qa.ts`. -/
inductive QaSource
  | representation
  | premium
  | guideline
  | purchase
deriving DecidableEq, Repr

/-- Metadata of a `QaChunk` (`qa.ts`);
the constant `source: "qa"` discriminant is implicit in the type. -/
structure QaMeta where
  qaSource : QaSource
  category : String
  originalId : String
  url : String
deriving DecidableEq, Repr

/-- The `QaChunk` from `qa.ts`. -/
structure QaChunk where
  id : String
  content : String
  metadata : QaMeta
deriving DecidableEq, Repr

/-!
## The shared Merge Pass (spec §4.4)

`law.ts` and `guideline.ts` each contain a `mergeSmallChunks` function whose
loops are textually identical except for how the merged chunk's id/metadata is
rebuilt.  `mergeLoop` embeds that common loop, parameterized by the content
projection and by `mk`, the family-specific merged-chunk constructor; each
family's `mk` below is taken verbatim from its source file.  The `pend`
argument is the loop's `pendingChunk` variable.
-/

/-- The `for (const chunk of chunks)` loop of `mergeSmallChunks`
(`law.ts` lines 150-199, `guideline.ts` lines 128-178), including the final
flush of a leftover pending chunk. -/
def mergeLoop {α : Type} (content : α → String) (mk : α → α → α)
    (minSize maxSize : Nat) : List α → Option α → List α
  | [], none => []
  | [], some p => [p]
  | c :: cs, none =>
    if (content c).length < minSize then
      mergeLoop content mk minSize maxSize cs (some c)
    else
      c :: mergeLoop content mk minSize maxSize cs none
  | c :: cs, some p =>
    if (content p ++ "\n\n" ++ content c).length ≤ maxSize then
      if (content (mk p c)).length < minSize then
        mergeLoop content mk minSize maxSize cs (some (mk p c))
      else
        mk p c :: mergeLoop content mk minSize maxSize cs none
    else
      p :: (if (content c).length < minSize then
              mergeLoop content mk minSize maxSize cs (some c)
            else
              c :: mergeLoop content mk minSize maxSize cs none)

namespace Law

/-- The `MIN_CHUNK_SIZE` from `law.ts`. -/
def MIN_CHUNK_SIZE : Nat := 100

/-- The `MAX_CHUNK_SIZE` from `law.ts`. -/
def MAX_CHUNK_SIZE : Nat := 2000

/-- The `mergedArticleNumber` computation from `law.ts` lines 164-167. -/
def mergedArticleNumber (p c : LawChunk) : String :=
  if p.metadata.articleNumber = c.metadata.articleNumber then
    p.metadata.articleNumber
  else
    p.metadata.articleNumber ++ "-" ++ c.metadata.articleNumber

/-- Construction of the merged law chunk, `law.ts` lines 169-177. -/
def mkMerged (p c : LawChunk) : LawChunk :=
  { id := c.metadata.lawId ++ "-art" ++ mergedArticleNumber p c
    content := p.content ++ "\n\n" ++ c.content
    metadata := { c.metadata with
                  articleNumber := mergedArticleNumber p c
                  articleTitle := jsOrStr p.metadata.articleTitle c.metadata.articleTitle } }

/-- The `mergeSmallChunks` from `law.ts` lines 146-202. -/
def mergeSmallChunks (chunks : List LawChunk) : List LawChunk :=
  if chunks = [] then []
  else mergeLoop (fun c => c.content) mkMerged MIN_CHUNK_SIZE MAX_CHUNK_SIZE chunks none

end Law

/-- Digit character for a value `0..9` (JS decimal number printing). -/
def digitChar : Nat → Char
  | 0 => '0'
  | 1 => '1'
  | 2 => '2'
  | 3 => '3'
  | 4 => '4'
  | 5 => '5'
  | 6 => '6'
  | 7 => '7'
  | 8 => '8'
  | 9 => '9'
  | _ => '0'

/-- Decimal digits with explicit fuel (structural recursion so that the
kernel can evaluate it); `fuel > n` always suffices since the argument
shrinks by a factor of 10 each step. -/
def natCharsAux : Nat → Nat → List Char
  | 0, _ => []
  | fuel + 1, n =>
    if n < 10 then [digitChar n]
    else natCharsAux fuel (n / 10) ++ [digitChar (n % 10)]

/-- Decimal digits of a natural number, most significant first: the way a JS
number (always an integer in this code base) is rendered in a template
literal or by `JSON.stringify`. -/
def natChars (n : Nat) : List Char := natCharsAux (n + 1) n

/-- Decimal rendering of a natural number as a string. -/
def natToString (n : Nat) : String := String.mk (natChars n)

/-- JS `\d` character class. -/
def isDigitChar (c : Char) : Bool := '0' ≤ c && c ≤ '9'

/-- Whether the regex `-chunk\d+$` (anchored at the end) matches the whole remaining suffix `l`. -/
def chunkSuffixAt (l : List Char) : Bool :=
  match l with
  | '-' :: 'c' :: 'h' :: 'u' :: 'n' :: 'k' :: rest =>
      !rest.isEmpty && rest.all isDigitChar
  | _ => false

/-- Start position of the leftmost match of `-chunk\d+$` (anchored at the end) in `l`, if any:
how a non-global `String.replace` locates its match. -/
def findChunkSuffix (l : List Char) : Option Nat :=
  (List.range l.length).find? (fun i => chunkSuffixAt (l.drop i))

/-- JS `id.replace` of the end-anchored pattern `-chunk\d+$` by `-chunk` ++ `idx`
(`guideline.ts` line 183); when the pattern does not match, the id is unchanged. -/
def replaceChunkSuffix (id : String) (idx : Nat) : String :=
  match findChunkSuffix id.toList with
  | some i => String.mk (id.toList.take i) ++ "-chunk" ++ natToString idx
  | none => id

namespace Guideline

/-- The `MIN_CHUNK_SIZE` from `guideline.ts`. -/
def MIN_CHUNK_SIZE : Nat := 100

/-- Construction of the merged guideline chunk, `guideline.ts` lines 146-153:
the spread `{...chunk}` keeps the second chunk's id and remaining metadata. -/
def mkMerged (p c : GuidelineChunk) : GuidelineChunk :=
  { c with
    content := p.content ++ "\n\n" ++ c.content
    metadata := { c.metadata with
                  sectionTitle := jsOrStr p.metadata.sectionTitle c.metadata.sectionTitle } }

/-- The renumbering `result.map((chunk, index) => ...)` from
`guideline.ts` lines 181-188, threaded with the running index. -/
def renumberFrom (i : Nat) : List GuidelineChunk → List GuidelineChunk
  | [] => []
  | c :: cs =>
      { c with
        id := replaceChunkSuffix c.id i
        metadata := { c.metadata with chunkIndex := i } } :: renumberFrom (i + 1) cs

/-- The `mergeSmallChunks` from `guideline.ts` lines 121-189 (loop plus the final
chunk-index renumbering). -/
def mergeSmallChunks (chunks : List GuidelineChunk) (minSize maxSize : Nat) :
    List GuidelineChunk :=
  if chunks = [] then []
  else renumberFrom 0 (mergeLoop (fun c => c.content) mkMerged minSize maxSize chunks none)

end Guideline

/-!
## Guideline chunking pipeline (`guideline.ts`, spec §4.2)
-/

/-- JS `String.prototype.trim` whitespace (WhiteSpace ∪ LineTerminator). -/
def isJsWhitespace (c : Char) : Bool :=
  let n := c.toNat
  (9 ≤ n && n ≤ 13) || n = 32 || n = 160 || n = 5760 ||
  (8192 ≤ n && n ≤ 8202) || n = 8232 || n = 8233 || n = 8239 ||
  n = 8287 || n = 12288 || n = 65279

/-- JS `s.trim()`. -/
def jsTrim (s : String) : String :=
  String.mk (((s.toList.dropWhile isJsWhitespace).reverse.dropWhile isJsWhitespace).reverse)

/-- The kanji numerals accepted by the default `sectionPattern`. -/
def kanjiNumerals : List Char := ['一', '二', '三', '四', '五', '六', '七', '八', '九', '十', '百']

/-- The default `sectionPattern` of `guideline.ts` line 41 applied (as
`RegExp.test`) to a single already-split line: the line has no newline in it,
so the multiline `^` can only anchor at position 0, and the trailing
`の?\d*` of the second alternative always matches (possibly emptily), leaving
three start-anchored alternatives. -/
def isSectionHeading (line : String) : Bool :=
  match line.toList with
  | '第' :: rest =>
      (let ks := rest.takeWhile (fun c => kanjiNumerals.contains c)
       !ks.isEmpty &&
         (rest.drop ks.length).head?.any (fun c => c = '章' || c = '節' || c = '款' || c = '項')) ||
      (let ds := rest.takeWhile isDigitChar
       !ds.isEmpty &&
         (rest.drop ds.length).head?.any (fun c => c = '条' || c = '章' || c = '節'))
  | '【' :: rest =>
      let seg := rest.takeWhile (fun c => c ≠ '】')
      !seg.isEmpty && (rest.drop seg.length).head? = some '】'
  | _ => false

/-- A section produced by `splitIntoSections` (`guideline.ts` lines 47-81). -/
structure GSection where
  title : Option String
  content : String
deriving DecidableEq, Repr

/-- The line loop of `splitIntoSections`: `acc` is the pending section's
`content` line array and `t` its title; a section is emitted only when it
accumulated at least one line. -/
def splitIntoSectionsLoop : List String → Option String → List String → List GSection
  | [], t, acc =>
      if acc.isEmpty then [] else [⟨t, String.intercalate "\n" acc⟩]
  | line :: rest, t, acc =>
      if isSectionHeading (jsTrim line) then
        (if acc.isEmpty then [] else [⟨t, String.intercalate "\n" acc⟩]) ++
          splitIntoSectionsLoop rest (some (jsTrim line)) []
      else
        splitIntoSectionsLoop rest t (acc ++ [line])

/-- JS `text.split("\n")` (single-character separator), accumulated
char-by-char. -/
def splitLinesAux : List Char → List Char → List String
  | [], acc => [String.mk acc.reverse]
  | c :: cs, acc =>
    if c = '\n' then String.mk acc.reverse :: splitLinesAux cs []
    else splitLinesAux cs (c :: acc)

/-- JS `text.split("\n")`. -/
def splitLines (s : String) : List String := splitLinesAux s.toList []

/-- The `splitIntoSections` from `guideline.ts` lines 47-81. -/
def splitIntoSections (text : String) : List GSection :=
  splitIntoSectionsLoop (splitLines text) none []

/-- JS `text.lastIndexOf("。", pos)`: the largest index `i ≤ pos` holding the
full stop, `none` for the JS result `-1`. -/
def jsLastIndexOfPeriod (l : List Char) (pos : Nat) : Option Nat :=
  (List.range (pos + 1)).reverse.find? (fun i => l[i]? = some '。')

/-- JS `text.slice(a, b)` for `a ≤ b` (the only use here). -/
def sliceChars (l : List Char) (a b : Nat) : List Char :=
  (l.drop a).take (b - a)

/-- The `end` computation of one `splitWithOverlap` iteration
(`guideline.ts` lines 95-103): the tentative window end `start + chunkSize`,
snapped back to just after the last preceding full stop when one is found
past half the window (the JS float comparison `lastPeriod > start +
chunkSize / 2` coincides with this Nat-division comparison since
`lastPeriod` is an integer). -/
def nextEnd (text : List Char) (chunkSize start : Nat) : Nat :=
  if start + chunkSize < text.length then
    match jsLastIndexOfPeriod text (start + chunkSize) with
    | some lp => if start + chunkSize / 2 < lp then lp + 1 else start + chunkSize
    | none => start + chunkSize
  else start + chunkSize

/-- The `while (start < text.length)` loop of `splitWithOverlap`
(`guideline.ts` lines 94-113), with an explicit fuel: the loop's state is
exactly `start`, so a terminating JS run visits pairwise distinct values of
`start`, all below `text.length`, and `text.length + 1` units of fuel are
enough for every terminating run; `none` models divergence of the JS loop.
`nextEnd ... - chunkOverlap` is the JS `start = end - chunkOverlap;
if (start < 0) start = 0;` (truncated subtraction). -/
def splitGo (text : List Char) (chunkSize chunkOverlap : Nat) :
    Nat → Nat → List String → Option (List String)
  | 0, _, _ => none
  | fuel + 1, start, acc =>
    if start < text.length then
      if text.length ≤ nextEnd text chunkSize start then
        some (acc ++ [jsTrim (String.mk (sliceChars text start (nextEnd text chunkSize start)))])
      else
        splitGo text chunkSize chunkOverlap fuel (nextEnd text chunkSize start - chunkOverlap)
          (acc ++ [jsTrim (String.mk (sliceChars text start (nextEnd text chunkSize start)))])
    else some acc

/-- The `splitWithOverlap` from `guideline.ts` lines 86-116. -/
def splitWithOverlap (text : String) (chunkSize chunkOverlap : Nat) :
    Option (List String) :=
  if text.length ≤ chunkSize then some [text]
  else splitGo text.toList chunkSize chunkOverlap (text.length + 1) 0 []

/-- The `PdfDocument` from `loaders/pdf.ts`, restricted to the fields
`chunkGuideline` reads (`numPages` and `pages` are only used by the
page-mode chunker). -/
structure PdfDocument where
  filename : String
  title : Option String
  text : String
deriving DecidableEq, Repr

/-- The `GuidelineChunkerOptions` from `guideline.ts`; `sectionPattern` is fixed
to the default pattern (no call site or claim supplies a custom one). -/
structure GuidelineChunkerOptions where
  chunkSize : Option Nat := none
  chunkOverlap : Option Nat := none
deriving DecidableEq, Repr

/-- The `{ ...DEFAULT_OPTIONS, ...options }.chunkSize` (default 1000). -/
def resolvedChunkSize (o : GuidelineChunkerOptions) : Nat := o.chunkSize.getD 1000

/-- The `{ ...DEFAULT_OPTIONS, ...options }.chunkOverlap` (default 200). -/
def resolvedChunkOverlap (o : GuidelineChunkerOptions) : Nat := o.chunkOverlap.getD 200

/-- The `for (const content of sectionChunks)` loop of `chunkGuideline`
(`guideline.ts` lines 209-227) for one section, threading the running
`chunkIndex`, returning the produced chunks and the updated index.
`section.title ? ... : content` is JS-truthy on the title. -/
def buildPieces (filename : String) (docTitle : Option String)
    (secTitle : Option String) : List String → Nat → List GuidelineChunk × Nat
  | [], idx => ([], idx)
  | piece :: rest, idx =>
    if jsTrim piece = "" then
      buildPieces filename docTitle secTitle rest idx
    else
      let chunkContent :=
        match secTitle with
        | some t => if t = "" then piece else t ++ "\n\n" ++ piece
        | none => piece
      let ch : GuidelineChunk :=
        { id := filename ++ "-chunk" ++ natToString idx
          content := chunkContent
          metadata :=
            { filename := filename
              title := docTitle
              pageNumber := none
              sectionTitle := secTitle
              chunkIndex := idx } }
      (ch :: (buildPieces filename docTitle secTitle rest (idx + 1)).1,
       (buildPieces filename docTitle secTitle rest (idx + 1)).2)

/-- The `for (const section of sections)` loop of `chunkGuideline`
(`guideline.ts` lines 205-228); `none` propagates divergence of
`splitWithOverlap`. -/
def buildSections (filename : String) (docTitle : Option String)
    (chunkSize chunkOverlap : Nat) : List GSection → Nat → Option (List GuidelineChunk)
  | [], _ => some []
  | s :: ss, idx =>
    match splitWithOverlap s.content chunkSize chunkOverlap with
    | none => none
    | some pieces =>
      (buildSections filename docTitle chunkSize chunkOverlap ss
          (buildPieces filename docTitle s.title pieces idx).2).map
        ((buildPieces filename docTitle s.title pieces idx).1 ++ ·)

/-- The pre-merge part of `chunkGuideline` (`guideline.ts` lines 198-228):
section split followed by per-section sliding-window split. -/
def buildChunks (doc : PdfDocument) (options : GuidelineChunkerOptions) :
    Option (List GuidelineChunk) :=
  buildSections doc.filename doc.title
    (resolvedChunkSize options) (resolvedChunkOverlap options)
    (splitIntoSections doc.text) 0

/-- The `chunkGuideline` from `guideline.ts` lines 194-232; its final line is
`mergeSmallChunks(chunks, MIN_CHUNK_SIZE, opts.chunkSize)`. -/
def chunkGuideline (doc : PdfDocument) (options : GuidelineChunkerOptions) :
    Option (List GuidelineChunk) :=
  (buildChunks doc options).map
    (fun cks => Guideline.mergeSmallChunks cks Guideline.MIN_CHUNK_SIZE
      (resolvedChunkSize options))

/-!
## JSON serialization of chunk metadata (`vectorStore.ts`)

Every chunk family's metadata is a flat JSON object whose values are strings
or (for `paragraphNumber`, `pageNumber`, `chunkIndex`) non-negative integers,
so `JSON.stringify` / `JSON.parse` are modelled on flat objects of that shape.
The parser is `JSON.parse` restricted to the whitespace-free output format of
`JSON.stringify`, which is the only input the store ever feeds it.
-/

/-- A flat JSON value: a string or a non-negative integer. -/
inductive JVal
  | s (v : String)
  | n (v : Nat)
deriving DecidableEq, Repr

/-- A flat JSON object: ordered key/value pairs, as a JS object. -/
abbrev JObj := List (String × JVal)

/-- Lowercase hex digit, as produced by `JSON.stringify` in `\u00XX` escapes. -/
def hexDigitChar : Nat → Char
  | 0 => '0'
  | 1 => '1'
  | 2 => '2'
  | 3 => '3'
  | 4 => '4'
  | 5 => '5'
  | 6 => '6'
  | 7 => '7'
  | 8 => '8'
  | 9 => '9'
  | 10 => 'a'
  | 11 => 'b'
  | 12 => 'c'
  | 13 => 'd'
  | 14 => 'e'
  | 15 => 'f'
  | _ => '0'

/-- The `JSON.stringify` escaping of one character (ECMA-262 QuoteJSONString):
quote and backslash, the five short escapes, `\u00XX` for remaining control
characters, everything else verbatim. -/
def escChar (c : Char) : List Char :=
  if c = '"' then ['\\', '"']
  else if c = '\\' then ['\\', '\\']
  else if c = '\x08' then ['\\', 'b']
  else if c = '\x0c' then ['\\', 'f']
  else if c = '\n' then ['\\', 'n']
  else if c = '\x0d' then ['\\', 'r']
  else if c = '\t' then ['\\', 't']
  else if c.toNat < 32 then
    ['\\', 'u', '0', '0', hexDigitChar (c.toNat / 16), hexDigitChar (c.toNat % 16)]
  else [c]

/-- Escape a whole string body. -/
def escChars : List Char → List Char
  | [] => []
  | c :: cs => escChar c ++ escChars cs

/-- A JSON string literal with its quotes. -/
def quoteString (s : String) : String :=
  "\"" ++ String.mk (escChars s.toList) ++ "\""

/-- Rendering of one JSON value. -/
def jvalString : JVal → String
  | .s v => quoteString v
  | .n v => natToString v

/-- The comma-joined `"key":value` members of an object
(structural form of `members.join(",")`). -/
def stringifyFields : JObj → String
  | [] => ""
  | [kv] => quoteString kv.1 ++ ":" ++ jvalString kv.2
  | kv :: rest => quoteString kv.1 ++ ":" ++ jvalString kv.2 ++ "," ++ stringifyFields rest

/-- The `JSON.stringify` of a flat object. -/
def stringifyObj (o : JObj) : String :=
  "\x7b" ++ stringifyFields o ++ "\x7d"

/-- Value of a hex digit character. -/
def hexVal (c : Char) : Option Nat :=
  if '0' ≤ c && c ≤ '9' then some (c.toNat - 48)
  else if 'a' ≤ c && c ≤ 'f' then some (c.toNat - 87)
  else if 'A' ≤ c && c ≤ 'F' then some (c.toNat - 55)
  else none

/-- The character encoded by a two-character JSON escape, if the escape
letter is one of the short escapes. -/
def shortEscape (e : Char) : Option Char :=
  if e = '"' then some '"'
  else if e = '\\' then some '\\'
  else if e = '/' then some '/'
  else if e = 'b' then some '\x08'
  else if e = 'f' then some '\x0c'
  else if e = 'n' then some '\n'
  else if e = 'r' then some '\x0d'
  else if e = 't' then some '\t'
  else none

/-- Four hex digits after a `\u` escape: the decoded code point and the
remaining input. -/
def parseHex4 : List Char → Option (Nat × List Char)
  | h1 :: h2 :: h3 :: h4 :: r2 =>
    match hexVal h1, hexVal h2, hexVal h3, hexVal h4 with
    | some a, some b, some c, some d => some (a * 4096 + b * 256 + c * 16 + d, r2)
    | _, _, _, _ => none
  | _ => none

/-- Decode one JSON escape sequence (after the backslash): the decoded
character and the remaining input. -/
def decodeEscape : List Char → Option (Char × List Char)
  | [] => none
  | e :: r =>
    match shortEscape e with
    | some decoded => some (decoded, r)
    | none =>
      if e = 'u' then
        match parseHex4 r with
        | some (n, r2) => some (Char.ofNat n, r2)
        | none => none
      else none

/-- Parse a JSON string body up to and including its closing quote, returning
the decoded characters and the remaining input; the fuel only bounds the
number of decoded characters (each consumes at least one input character), so
`input.length` fuel is always enough. -/
def parseStrBodyF : Nat → List Char → Option (List Char × List Char)
  | 0, _ => none
  | _ + 1, [] => none
  | fuel + 1, c :: rest =>
    if c = '"' then some ([], rest)
    else if c = '\\' then
      match decodeEscape rest with
      | some (d, r) => (parseStrBodyF fuel r).map (fun st => (d :: st.1, st.2))
      | none => none
    else if c.toNat < 32 then none
    else (parseStrBodyF fuel rest).map (fun st => (c :: st.1, st.2))

/-- Parse a JSON string body with the always-sufficient fuel. -/
def parseStrBody (l : List Char) : Option (List Char × List Char) :=
  parseStrBodyF l.length l

/-- Digit run to a natural number. -/
def charsToNat (ds : List Char) : Nat :=
  ds.foldl (fun a c => a * 10 + (c.toNat - 48)) 0

/-- Parse one JSON value (string or non-negative integer). -/
def parseVal : List Char → Option (JVal × List Char)
  | [] => none
  | c :: rest =>
    if c = '"' then (parseStrBody rest).map (fun st => (JVal.s (String.mk st.1), st.2))
    else if isDigitChar c then
      some (JVal.n (charsToNat ((c :: rest).takeWhile isDigitChar)),
            (c :: rest).dropWhile isDigitChar)
    else none

/-- Parse one `"key":value` member, returning the member and the remaining
input (which must then start with `,` or the closing brace). -/
def parseField (l : List Char) : Option ((String × JVal) × List Char) :=
  match l with
  | '"' :: rest =>
    match parseStrBody rest with
    | none => none
    | some (k, r1) =>
      match r1 with
      | ':' :: r2 =>
        match parseVal r2 with
        | none => none
        | some (v, r3) => some ((String.mk k, v), r3)
      | _ => none
  | _ => none

/-- One step of the member loop: parse a member, then continue after a comma
or stop at the closing brace. -/
def parseFieldsStep (next : List Char → Option (JObj × List Char)) (l : List Char) :
    Option (JObj × List Char) :=
  match parseField l with
  | none => none
  | some (kv, r3) =>
    match r3 with
    | ',' :: r4 => (next r4).map (fun ot => (kv :: ot.1, ot.2))
    | '\x7d' :: r4 => some ([kv], r4)
    | _ => none

/-- Parse the members of a non-empty object after its opening brace; the fuel
only bounds the number of members (at most one per remaining character). -/
def parseFieldsLoop : Nat → List Char → Option (JObj × List Char)
  | 0, _ => none
  | fuel + 1, l => parseFieldsStep (parseFieldsLoop fuel) l

/-- The `JSON.parse` on a flat object (whitespace-free form). -/
def parseObj (s : String) : Option JObj :=
  match s.toList with
  | '\x7b' :: '\x7d' :: rest => if rest.isEmpty then some [] else none
  | '\x7b' :: rest =>
    match parseFieldsLoop rest.length rest with
    | some (o, []) => some o
    | _ => none
  | _ => none

/-!
## Document store (`vectorStore.ts`)
-/

/-- The `DocumentChunk = LawChunk | GuidelineChunk | QaChunk`. -/
inductive DocumentChunk
  | law (c : LawChunk)
  | guideline (c : GuidelineChunk)
  | qa (c : QaChunk)
deriving DecidableEq, Repr

/-- The `chunk.id`. -/
def DocumentChunk.cid : DocumentChunk → String
  | .law c => c.id
  | .guideline c => c.id
  | .qa c => c.id

/-- The `chunk.content`. -/
def DocumentChunk.text : DocumentChunk → String
  | .law c => c.content
  | .guideline c => c.content
  | .qa c => c.content

/-- The `chunk.metadata.source` discriminant string. -/
def DocumentChunk.sourceName : DocumentChunk → String
  | .law _ => "law"
  | .guideline _ => "guideline"
  | .qa _ => "qa"

/-- The `qaSource` enum value as its JSON string. -/
def QaSource.toName : QaSource → String
  | .representation => "representation"
  | .premium => "premium"
  | .guideline => "guideline"
  | .purchase => "purchase"

/-- The `chunkType` enum value as its JSON string. -/
def LawChunkType.toName : LawChunkType → String
  | .article => "article"
  | .paragraph => "paragraph"
  | .item => "item"

/-- An optional JSON member: a property holding `undefined` is dropped by
`JSON.stringify`. -/
def optField (k : String) (v : Option JVal) : JObj :=
  match v with
  | some x => [(k, x)]
  | none => []

/-- The law metadata object, in the property order of `law.ts`. -/
def lawMetaFields (m : LawMeta) : JObj :=
  [("source", JVal.s "law"), ("lawId", JVal.s m.lawId), ("lawTitle", JVal.s m.lawTitle),
   ("articleNumber", JVal.s m.articleNumber)] ++
  optField "articleTitle" (m.articleTitle.map JVal.s) ++
  optField "paragraphNumber" (m.paragraphNumber.map JVal.n) ++
  optField "itemNumber" (m.itemNumber.map JVal.s) ++
  [("chunkType", JVal.s m.chunkType.toName)]

/-- The guideline metadata object, in the property order of `guideline.ts`. -/
def guidelineMetaFields (m : GuidelineMeta) : JObj :=
  [("source", JVal.s "guideline"), ("filename", JVal.s m.filename)] ++
  optField "title" (m.title.map JVal.s) ++
  optField "pageNumber" (m.pageNumber.map JVal.n) ++
  optField "sectionTitle" (m.sectionTitle.map JVal.s) ++
  [("chunkIndex", JVal.n m.chunkIndex)]

/-- The qa metadata object, in the property order of `qa.ts`. -/
def qaMetaFields (m : QaMeta) : JObj :=
  [("source", JVal.s "qa"), ("qaSource", JVal.s m.qaSource.toName),
   ("category", JVal.s m.category), ("originalId", JVal.s m.originalId),
   ("url", JVal.s m.url)]

/-- The `chunk.metadata` as the JS object handed to `JSON.stringify`. -/
def DocumentChunk.metaFields : DocumentChunk → JObj
  | .law c => lawMetaFields c.metadata
  | .guideline c => guidelineMetaFields c.metadata
  | .qa c => qaMetaFields c.metadata

/-- The `StoredDocument` from `vectorStore.ts`. -/
structure StoredDocument where
  id : String
  content : String
  vector : List ℚ
  source : String
  articleNumber : String
  category : String
  filename : String
  metadata : String
deriving DecidableEq, Repr

/-- The flattening of one chunk into a `StoredDocument` row
(`vectorStore.ts` lines 140-154): `"articleNumber" in meta` holds exactly for
law chunks, `"category" in meta` for qa chunks, `"filename" in meta` for
guideline chunks, and absent fields store the empty string. -/
def toStoredDocument (chunk : DocumentChunk) (vec : List ℚ) : StoredDocument :=
  { id := chunk.cid
    content := chunk.text
    vector := vec
    source := chunk.sourceName
    articleNumber :=
      match chunk with
      | .law c => c.metadata.articleNumber
      | _ => ""
    category :=
      match chunk with
      | .qa c => c.metadata.category
      | _ => ""
    filename :=
      match chunk with
      | .guideline c => c.metadata.filename
      | _ => ""
    metadata := stringifyObj chunk.metaFields }

/-- A dynamically-typed JS value as seen by `parseSearchResult`'s `typeof`
checks; `undef` stands for any non-string non-number value. -/
inductive JsValue
  | str (s : String)
  | num (q : ℚ)
  | undef
deriving DecidableEq, Repr

/-- A raw search-result row (`Record<string, unknown>`): the stored columns
plus the query engine's `_distance` field (`distanceVal` here). -/
structure SearchRow where
  id : JsValue
  content : JsValue
  source : JsValue
  articleNumber : JsValue
  category : JsValue
  filename : JsValue
  metadata : JsValue
  distanceVal : JsValue
deriving DecidableEq, Repr

/-- The row a stored document comes back as, with the engine's numeric
`_distance` attached. -/
def StoredDocument.toRow (d : StoredDocument) (dist : ℚ) : SearchRow :=
  { id := JsValue.str d.id
    content := JsValue.str d.content
    source := JsValue.str d.source
    articleNumber := JsValue.str d.articleNumber
    category := JsValue.str d.category
    filename := JsValue.str d.filename
    metadata := JsValue.str d.metadata
    distanceVal := JsValue.num dist }

/-- The `SearchResult` from `vectorStore.ts`; `score` is the raw distance. -/
structure SearchResult where
  id : String
  content : String
  source : String
  articleNumber : String
  category : String
  filename : String
  metadata : JObj
  score : ℚ
deriving DecidableEq, Repr

/-- The `VALID_SOURCES` from `vectorStore.ts`. -/
def VALID_SOURCES : List String := ["law", "guideline", "qa", "violation"]

/-- The `validateSource` from `vectorStore.ts` lines 35-40. -/
def validateSource (source : String) : Except String String :=
  if VALID_SOURCES.contains source then Except.ok source
  else Except.error ("Invalid source: " ++ source ++
    ". Must be one of: " ++ String.intercalate ", " VALID_SOURCES)

/-- The `parseSearchResult` from `vectorStore.ts` lines 181-229: strict `typeof`
checks on the required fields in source order, source validation, JSON parse
of the metadata blob, and empty-string defaulting of the optional flattened
columns. -/
def parseSearchResult (row : SearchRow) : Except String SearchResult :=
  match row.id with
  | JsValue.str id =>
    match row.content with
    | JsValue.str content =>
      match row.source with
      | JsValue.str source =>
        match row.metadata with
        | JsValue.str metadataStr =>
          match row.distanceVal with
          | JsValue.num distance =>
            match validateSource source with
            | Except.error e => Except.error e
            | Except.ok validatedSource =>
              match parseObj metadataStr with
              | none => Except.error "Failed to parse metadata JSON"
              | some metadata =>
                Except.ok
                  { id := id
                    content := content
                    source := validatedSource
                    articleNumber :=
                      match row.articleNumber with
                      | JsValue.str s => s
                      | _ => ""
                    category :=
                      match row.category with
                      | JsValue.str s => s
                      | _ => ""
                    filename :=
                      match row.filename with
                      | JsValue.str s => s
                      | _ => ""
                    metadata := metadata
                    score := distance }
          | _ => Except.error "Invalid _distance type"
        | _ => Except.error "Invalid metadata type"
      | _ => Except.error "Invalid source type"
    | _ => Except.error "Invalid content type"
  | _ => Except.error "Invalid id type"

/-!
## `search` effect ordering and `multiSearch` (`vectorStore.ts`)
-/

/-- The externally visible operations `search` performs, in program order. -/
inductive SearchEvent
  | tableAccess
  | embedQuery
  | filterBuilt (predicate : String)
  | queryExecuted
deriving DecidableEq, Repr

/-- The ordered effect trace of `search(query, {source})`
(`vectorStore.ts` lines 235-282) together with the error it raises, if any:
empty-query check, then `await getTable()`, then `await embedText(query)`,
then the `if (source)` truthiness gate — the empty string is falsy in JS, so
`source = ""` skips validation and the `.where` filter exactly like an absent
source — then (for a truthy source) `validateSource` and the `.where` filter,
then `await searchQuery.toArray()`.  External calls are taken as succeeding;
their own failures would only truncate the trace earlier. -/
def searchEvents (query : String) (source : Option String) :
    List SearchEvent × Option String :=
  if query = "" || jsTrim query = "" then ([], some "Query cannot be empty")
  else
    let evs := [SearchEvent.tableAccess, SearchEvent.embedQuery]
    match source with
    | some s =>
      if s = "" then (evs ++ [SearchEvent.queryExecuted], none)
      else
        match validateSource s with
        | Except.ok v =>
          (evs ++ [SearchEvent.filterBuilt ("source = '" ++ v ++ "'"),
                   SearchEvent.queryExecuted], none)
        | Except.error e => (evs, some e)
    | none => (evs ++ [SearchEvent.queryExecuted], none)

/-- The result assembly of `multiSearch` (`vectorStore.ts` lines 289-304):
`Promise.all` returns the per-source result lists in request order, which are
flattened and sorted ascending by score.  JS `Array.prototype.sort` with the
consistent comparator `(a, b) => a.score - b.score` (scores are plain
numbers) is a stable sort by score, modelled by a stable merge sort. -/
def multiSearchCombine (results : List (List SearchResult)) : List SearchResult :=
  results.flatten.mergeSort (fun a b => decide (a.score ≤ b.score))

/-!
## `countDocuments` (`vectorStore.ts` lines 321-328)
-/

/-- The `TABLE_NAME` from `vectorStore.ts`. -/
def TABLE_NAME : String := "documents"

/-- The outcomes of the external database operations `countDocuments` can
hit: connection, table listing, and the row count call. -/
structure VectorStoreEnv where
  connectOk : Bool
  tableNamesOk : Bool
  tableNames : List String
  countRowsResult : Option Nat
deriving DecidableEq, Repr

/-- The `getTable` (`vectorStore.ts` lines 93-104) viewed through its possible
outcomes: a connect failure, a table-listing failure, or the missing-table
error; success opens the table. -/
def getTableOutcome (env : VectorStoreEnv) : Except String Unit :=
  if !env.connectOk then Except.error "Failed to connect to database"
  else if !env.tableNamesOk then Except.error "Failed to get table names"
  else if env.tableNames.contains TABLE_NAME then Except.ok ()
  else Except.error "Table does not exist. Run ingest first to create it."

/-- The `countDocuments`: `try { const table = await getTable(); return await
table.countRows(); } catch { return 0; }` — the catch-all swallows every
failure. -/
def countDocuments (env : VectorStoreEnv) : Nat :=
  match getTableOutcome env with
  | Except.error _ => 0
  | Except.ok _ =>
    match env.countRowsResult with
    | some n => n
    | none => 0

/-!
# Theorems
-/

/-- C10: `countDocuments` never throws (it is a total function into `Nat`):
it returns the table's row count whenever connecting, listing tables, finding
the `documents` table, and counting rows all succeed, and returns 0 on any
failure whatsoever — a failed connection, a failed table listing, a missing
table, or a failing `countRows` call. -/
theorem countDocuments_total_spec :
    (∀ (env : VectorStoreEnv) (n : Nat),
        env.connectOk = true → env.tableNamesOk = true →
        env.tableNames.contains TABLE_NAME = true →
        env.countRowsResult = some n →
        countDocuments env = n) ∧
    (∀ env : VectorStoreEnv,
        env.connectOk = false ∨ env.tableNamesOk = false ∨
        env.tableNames.contains TABLE_NAME = false ∨ env.countRowsResult = none →
        countDocuments env = 0) := by
  constructor
  · intro env n h1 h2 h3 h4
    have h3' : TABLE_NAME ∈ env.tableNames := by simpa using h3
    simp [countDocuments, getTableOutcome, h1, h2, h3', h4]
  · intro env h
    rcases h with h | h | h | h <;>
      · unfold countDocuments getTableOutcome
        cases hc : env.connectOk <;> cases ht : env.tableNamesOk <;>
          by_cases hm : TABLE_NAME ∈ env.tableNames <;>
            simp_all

/-- Closed instance of `countDocuments_total_spec`: a reachable table with 42
rows counts 42; a failed connection counts 0. -/
theorem countDocuments_total_spec_witness :
    countDocuments ⟨true, true, ["documents"], some 42⟩ = 42 ∧
    countDocuments ⟨false, true, ["documents"], some 42⟩ = 0 :=
  ⟨countDocuments_total_spec.1 ⟨true, true, ["documents"], some 42⟩ 42 rfl rfl
      (by decide) rfl,
   countDocuments_total_spec.2 ⟨false, true, ["documents"], some 42⟩ (Or.inl rfl)⟩

/-- C4 (counterexample): on the query `"広告"` with the invalid source
`"'; DROP--"`, `search` does raise the validation error, but only after the
table access and the query-embedding call already happened — the rejection is
not "before any I/O / before any embedding call" as claimed.  Worse, the
invalid source `""` (outside the allow-list) is not rejected at all: the
`if (source)` gate at `vectorStore.ts` line 265 treats the falsy empty string
like an absent source, skips validation, and executes the unfiltered query
with no error. -/
theorem search_invalid_source_counterexample :
    ((searchEvents "広告" (some "'; DROP--")).2.isSome = true ∧
    SearchEvent.tableAccess ∈ (searchEvents "広告" (some "'; DROP--")).1 ∧
    SearchEvent.embedQuery ∈ (searchEvents "広告" (some "'; DROP--")).1) ∧
    (VALID_SOURCES.contains "" = false ∧
    (searchEvents "広告" (some "")).2 = none ∧
    SearchEvent.queryExecuted ∈ (searchEvents "広告" (some "")).1) := by
  decide

/-- C4 (amended): `search` validates a truthy source option against the
fixed allow-list `["law", "guideline", "qa", "violation"]`: every nonempty
source string outside the allow-list is rejected with a validation error
before any filter predicate is built and before the vector query executes —
though only after the table access and the query-embedding call.  The empty
string, although also outside the allow-list, is falsy and so skips the
`if (source)` block entirely: no validation error is raised, no filter is
built, and the unfiltered query executes. -/
theorem search_invalid_source_rejected (q s : String)
    (hq : jsTrim q ≠ "") (hs0 : s ≠ "")
    (hs : VALID_SOURCES.contains s = false) :
    ((searchEvents q (some s)).2 =
      some ("Invalid source: " ++ s ++ ". Must be one of: " ++
        String.intercalate ", " VALID_SOURCES) ∧
    (∀ p, SearchEvent.filterBuilt p ∉ (searchEvents q (some s)).1) ∧
    SearchEvent.queryExecuted ∉ (searchEvents q (some s)).1) ∧
    ((searchEvents q (some "")).2 = none ∧
    (∀ p, SearchEvent.filterBuilt p ∉ (searchEvents q (some "")).1) ∧
    SearchEvent.queryExecuted ∈ (searchEvents q (some "")).1) := by
  have hq0 : q ≠ "" := by
    intro h
    exact hq (by simp [h, jsTrim])
  have hs' : s ∉ VALID_SOURCES := by simpa using hs
  constructor
  · simp [searchEvents, hq0, hq, hs0, validateSource, hs']
  · simp [searchEvents, hq0, hq]

/-- Closed instance of `search_invalid_source_rejected` at the injection
attempt `"'; DROP--"`. -/
theorem search_invalid_source_rejected_witness :
    jsTrim "広告" ≠ "" ∧ "'; DROP--" ≠ "" ∧
    VALID_SOURCES.contains "'; DROP--" = false ∧
    (((searchEvents "広告" (some "'; DROP--")).2 =
      some ("Invalid source: " ++ "'; DROP--" ++ ". Must be one of: " ++
        String.intercalate ", " VALID_SOURCES) ∧
    (∀ p, SearchEvent.filterBuilt p ∉ (searchEvents "広告" (some "'; DROP--")).1) ∧
    SearchEvent.queryExecuted ∉ (searchEvents "広告" (some "'; DROP--")).1) ∧
    ((searchEvents "広告" (some "")).2 = none ∧
    (∀ p, SearchEvent.filterBuilt p ∉ (searchEvents "広告" (some "")).1) ∧
    SearchEvent.queryExecuted ∈ (searchEvents "広告" (some "")).1)) :=
  ⟨by decide, by decide, by decide,
   search_invalid_source_rejected "広告" "'; DROP--" (by decide) (by decide) (by decide)⟩

/-- C6: `multiSearch` returns the concatenation of the per-source result
lists sorted ascending by score: the combined output is pairwise
non-decreasing in score and is a permutation of the flattened per-source
results, for every family of per-source result lists (hence regardless of the
order in which the concurrent per-source searches complete — `Promise.all`
fixes the request order, and the final sort is by score alone). -/
theorem multiSearch_sorted_by_score (results : List (List SearchResult)) :
    List.Pairwise (fun a b => a.score ≤ b.score) (multiSearchCombine results) ∧
    (multiSearchCombine results).Perm results.flatten := by
  constructor
  · have h := @List.sorted_mergeSort SearchResult
      (fun a b : SearchResult => decide (a.score ≤ b.score))
      (fun a b c hab hbc => by
        simp only [decide_eq_true_eq] at *
        exact le_trans hab hbc)
      (fun a b => by
        simp only [Bool.or_eq_true, decide_eq_true_eq]
        exact le_total _ _)
      results.flatten
    refine h.imp ?_
    intro a b hab
    simpa using hab
  · exact List.mergeSort_perm _ _

/-- C5: when the Merge Pass merges two adjacent law chunks (the first one
pending because it is under `MIN_CHUNK_SIZE`, and the combined content within
`MAX_CHUNK_SIZE`), the result is the single merged chunk whose content is the
blank-line concatenation, whose `articleNumber` is the unchanged common value
when the two article numbers agree and the range string `A-B` otherwise, and
whose id is rebuilt as `<lawId>-art<combinedNumber>`. -/
theorem law_merge_pair (p c : LawChunk)
    (hp : p.content.length < 100)
    (hle : (p.content ++ "\n\n" ++ c.content).length ≤ 2000) :
    Law.mergeSmallChunks [p, c] = [Law.mkMerged p c] ∧
    (Law.mkMerged p c).content = p.content ++ "\n\n" ++ c.content ∧
    (Law.mkMerged p c).metadata.articleNumber =
      (if p.metadata.articleNumber = c.metadata.articleNumber then p.metadata.articleNumber
       else p.metadata.articleNumber ++ "-" ++ c.metadata.articleNumber) ∧
    (Law.mkMerged p c).id =
      c.metadata.lawId ++ "-art" ++ (Law.mkMerged p c).metadata.articleNumber := by
  refine ⟨?_, rfl, rfl, rfl⟩
  have hle2 : p.content.length + "\n\n".length + c.content.length ≤ 2000 := by
    simpa using hle
  by_cases h2 : (Law.mkMerged p c).content.length < 100
  · simp [Law.mergeSmallChunks, mergeLoop, Law.MIN_CHUNK_SIZE, Law.MAX_CHUNK_SIZE,
      hp, hle2, h2]
  · simp [Law.mergeSmallChunks, mergeLoop, Law.MIN_CHUNK_SIZE, Law.MAX_CHUNK_SIZE,
      hp, hle2, h2]

/-- Concrete law chunk for article 5 with an 80-character body. -/
def lawCexPending : LawChunk :=
  { id := "337AC0000000134-art5"
    content := String.mk (List.replicate 80 'あ')
    metadata :=
      { lawId := "337AC0000000134"
        lawTitle := "不当景品類及び不当表示防止法"
        articleNumber := "5"
        articleTitle := some "不当な表示の禁止"
        paragraphNumber := none
        itemNumber := none
        chunkType := LawChunkType.article } }

/-- Concrete law chunk for article 6 with a 150-character body. -/
def lawCexNext : LawChunk :=
  { id := "337AC0000000134-art6"
    content := String.mk (List.replicate 150 'い')
    metadata :=
      { lawId := "337AC0000000134"
        lawTitle := "不当景品類及び不当表示防止法"
        articleNumber := "6"
        articleTitle := none
        paragraphNumber := none
        itemNumber := none
        chunkType := LawChunkType.article } }

set_option maxRecDepth 8000 in
/-- Closed instance of `law_merge_pair`: the 80-character article-5 chunk
followed by the 150-character article-6 chunk (minSize 100, maxSize 2000)
merges into one chunk with `articleNumber = "5-6"` and 232 characters. -/
theorem law_merge_pair_witness :
    lawCexPending.content.length < 100 ∧
    (lawCexPending.content ++ "\n\n" ++ lawCexNext.content).length ≤ 2000 ∧
    (Law.mergeSmallChunks [lawCexPending, lawCexNext] =
        [Law.mkMerged lawCexPending lawCexNext] ∧
      (Law.mkMerged lawCexPending lawCexNext).content =
        lawCexPending.content ++ "\n\n" ++ lawCexNext.content ∧
      (Law.mkMerged lawCexPending lawCexNext).metadata.articleNumber =
        (if lawCexPending.metadata.articleNumber = lawCexNext.metadata.articleNumber then
          lawCexPending.metadata.articleNumber
         else lawCexPending.metadata.articleNumber ++ "-" ++
           lawCexNext.metadata.articleNumber) ∧
      (Law.mkMerged lawCexPending lawCexNext).id =
        lawCexNext.metadata.lawId ++ "-art" ++
          (Law.mkMerged lawCexPending lawCexNext).metadata.articleNumber) ∧
    (Law.mkMerged lawCexPending lawCexNext).metadata.articleNumber = "5-6" ∧
    (Law.mkMerged lawCexPending lawCexNext).content.length = 232 :=
  ⟨by decide, by decide, law_merge_pair lawCexPending lawCexNext (by decide) (by decide),
   by decide, by decide⟩

/-- Merge-loop invariant: when every incoming chunk and the pending chunk are
within `maxSize`, every chunk the loop emits is within `maxSize` (a merged
chunk is only formed when the combined content is `≤ maxSize`). -/
theorem mergeLoop_content_le_max {α : Type} (content : α → String) (mk : α → α → α)
    (Hmk : ∀ p c, content (mk p c) = content p ++ "\n\n" ++ content c)
    (minSize maxSize : Nat) :
    ∀ (cs : List α) (pend : Option α),
      (∀ c ∈ cs, (content c).length ≤ maxSize) →
      (∀ p, pend = some p → (content p).length ≤ maxSize) →
      ∀ x ∈ mergeLoop content mk minSize maxSize cs pend, (content x).length ≤ maxSize := by
  intro cs
  induction cs with
  | nil =>
    intro pend hcs hpend x hx
    cases pend with
    | none => simp [mergeLoop] at hx
    | some p =>
      simp [mergeLoop] at hx
      subst hx
      exact hpend _ rfl
  | cons c cs ih =>
    intro pend hcs hpend x hx
    have hc : (content c).length ≤ maxSize := hcs c (by simp)
    have hcs' : ∀ y ∈ cs, (content y).length ≤ maxSize :=
      fun y hy => hcs y (by simp [hy])
    cases pend with
    | none =>
      by_cases h1 : (content c).length < minSize
      · rw [mergeLoop, if_pos h1] at hx
        exact ih (some c) hcs' (fun q hq => Option.some.inj hq ▸ hc) x hx
      · rw [mergeLoop, if_neg h1] at hx
        rcases List.mem_cons.1 hx with h | h
        · subst h; exact hc
        · exact ih none hcs' (by simp) x h
    | some p =>
      by_cases hm : (content p ++ "\n\n" ++ content c).length ≤ maxSize
      · have hmk : (content (mk p c)).length ≤ maxSize := by rw [Hmk]; exact hm
        by_cases h2 : (content (mk p c)).length < minSize
        · rw [mergeLoop, if_pos hm, if_pos h2] at hx
          exact ih (some (mk p c)) hcs' (fun q hq => Option.some.inj hq ▸ hmk) x hx
        · rw [mergeLoop, if_pos hm, if_neg h2] at hx
          rcases List.mem_cons.1 hx with h | h
          · subst h; exact hmk
          · exact ih none hcs' (by simp) x h
      · rw [mergeLoop, if_neg hm] at hx
        rcases List.mem_cons.1 hx with h | h
        · subst h; exact hpend _ rfl
        · by_cases h1 : (content c).length < minSize
          · rw [if_pos h1] at h
            exact ih (some c) hcs' (fun q hq => Option.some.inj hq ▸ hc) x h
          · rw [if_neg h1] at h
            rcases List.mem_cons.1 h with h' | h'
            · subst h'; exact hc
            · exact ih none hcs' (by simp) x h'

/-- The renumbering step does not touch chunk contents. -/
theorem renumberFrom_map_content (i : Nat) (l : List GuidelineChunk) :
    (Guideline.renumberFrom i l).map (fun c => c.content) = l.map (fun c => c.content) := by
  induction l generalizing i with
  | nil => rfl
  | cons c cs ih => simp [Guideline.renumberFrom, ih]

/-- C2 (amended): the Merge Pass never *produces* an oversized chunk — if
every input chunk's content is within `maxSize`, every output chunk's content
is within `maxSize` (guideline merge for arbitrary thresholds, law merge for
its fixed 100/2000 thresholds); an input chunk already over `maxSize` is
passed through unchanged rather than truncated. -/
theorem merge_output_le_max :
    (∀ (chunks : List GuidelineChunk) (minSize maxSize : Nat),
        (∀ c ∈ chunks, c.content.length ≤ maxSize) →
        ∀ x ∈ Guideline.mergeSmallChunks chunks minSize maxSize,
          x.content.length ≤ maxSize) ∧
    (∀ chunks : List LawChunk,
        (∀ c ∈ chunks, c.content.length ≤ 2000) →
        ∀ x ∈ Law.mergeSmallChunks chunks, x.content.length ≤ 2000) := by
  constructor
  · intro chunks minSize maxSize hin x hx
    unfold Guideline.mergeSmallChunks at hx
    by_cases hne : chunks = []
    · simp [hne] at hx
    · rw [if_neg hne] at hx
      have hxc : x.content ∈
          (Guideline.renumberFrom 0
            (mergeLoop (fun c => c.content) Guideline.mkMerged minSize maxSize chunks none)).map
            (fun c => c.content) :=
        List.mem_map_of_mem _ hx
      rw [renumberFrom_map_content] at hxc
      obtain ⟨y, hy, hyx⟩ := List.mem_map.1 hxc
      rw [← hyx]
      exact mergeLoop_content_le_max (fun c => c.content) Guideline.mkMerged
        (fun p c => rfl) minSize maxSize chunks none hin (by simp) y hy
  · intro chunks hin x hx
    unfold Law.mergeSmallChunks at hx
    by_cases hne : chunks = []
    · simp [hne] at hx
    · rw [if_neg hne] at hx
      exact mergeLoop_content_le_max (fun c => c.content) Law.mkMerged
        (fun p c => rfl) Law.MIN_CHUNK_SIZE Law.MAX_CHUNK_SIZE chunks none hin (by simp) x hx

/-- An input chunk already larger than the maximum size. -/
def gChunkBig : GuidelineChunk :=
  { id := "f-chunk0"
    content := "abcdef"
    metadata :=
      { filename := "f", title := none, pageNumber := none,
        sectionTitle := none, chunkIndex := 0 } }

/-- C2 (counterexample): with thresholds minSize 3 / maxSize 5, the single
6-character input chunk is emitted unchanged, so the Merge Pass output is not
always within `maxSize` — the claim fails for inputs that are already
oversized (as article-mode law chunks and title-prefixed guideline chunks can
be). -/
theorem merge_output_le_max_counterexample :
    ¬(∀ x ∈ Guideline.mergeSmallChunks [gChunkBig] 3 5, x.content.length ≤ 5) := by
  decide

/-- A 2-character guideline chunk. -/
def gChunkA : GuidelineChunk :=
  { id := "f-chunk0"
    content := "ab"
    metadata :=
      { filename := "f", title := none, pageNumber := none,
        sectionTitle := none, chunkIndex := 0 } }

/-- A 4-character guideline chunk. -/
def gChunkB : GuidelineChunk :=
  { id := "f-chunk1"
    content := "cdef"
    metadata :=
      { filename := "f", title := none, pageNumber := none,
        sectionTitle := none, chunkIndex := 1 } }

/-- Closed instance of `merge_output_le_max`: inputs of 2 and 4 characters
with maxSize 10 merge into an 8-character chunk, within the bound. -/
theorem merge_output_le_max_witness :
    (∀ c ∈ [gChunkA, gChunkB], c.content.length ≤ 10) ∧
    (∀ x ∈ Guideline.mergeSmallChunks [gChunkA, gChunkB] 3 10,
      x.content.length ≤ 10) :=
  ⟨by decide, merge_output_le_max.1 [gChunkA, gChunkB] 3 10 (by decide)⟩

/-- When the loop starts with a pending chunk, its output is non-empty and
the first emitted chunk's content is at least as long as the pending content
(the pending chunk is either emitted as-is or only ever grows by merging). -/
theorem mergeLoop_pending_head {α : Type} (content : α → String) (mk : α → α → α)
    (Hmk : ∀ p c, content (mk p c) = content p ++ "\n\n" ++ content c)
    (minSize maxSize : Nat) :
    ∀ (cs : List α) (p : α), ∃ x xs,
      mergeLoop content mk minSize maxSize cs (some p) = x :: xs ∧
      (content p).length ≤ (content x).length := by
  intro cs
  induction cs with
  | nil => exact fun p => ⟨p, [], rfl, le_refl _⟩
  | cons c cs ih =>
    intro p
    by_cases hm : (content p ++ "\n\n" ++ content c).length ≤ maxSize
    · by_cases h2 : (content (mk p c)).length < minSize
      · obtain ⟨x, xs, hx, hlen⟩ := ih (mk p c)
        refine ⟨x, xs, ?_, ?_⟩
        · rw [mergeLoop, if_pos hm, if_pos h2]
          exact hx
        · refine le_trans ?_ hlen
          rw [Hmk]
          simp only [String.length_append]
          omega
      · refine ⟨mk p c, mergeLoop content mk minSize maxSize cs none, ?_, ?_⟩
        · rw [mergeLoop, if_pos hm, if_neg h2]
        · rw [Hmk]
          simp only [String.length_append]
          omega
    · refine ⟨p,
        (if (content c).length < minSize then
          mergeLoop content mk minSize maxSize cs (some c)
        else c :: mergeLoop content mk minSize maxSize cs none), ?_, le_refl _⟩
      rw [mergeLoop, if_neg hm]

/-- Merge-loop invariant behind the amended C1: between any two adjacent
output chunks, either the first one reached `minSize`, or it was flushed
because merging it with what follows would have exceeded `maxSize`. -/
theorem mergeLoop_chain {α : Type} (content : α → String) (mk : α → α → α)
    (Hmk : ∀ p c, content (mk p c) = content p ++ "\n\n" ++ content c)
    (minSize maxSize : Nat) :
    ∀ (cs : List α) (pend : Option α),
      List.Chain' (fun a b => minSize ≤ (content a).length ∨
          maxSize < (content a ++ "\n\n" ++ content b).length)
        (mergeLoop content mk minSize maxSize cs pend) := by
  intro cs
  induction cs with
  | nil =>
    intro pend
    cases pend with
    | none => simp [mergeLoop]
    | some p => simp [mergeLoop]
  | cons c cs ih =>
    intro pend
    cases pend with
    | none =>
      by_cases h1 : (content c).length < minSize
      · rw [mergeLoop, if_pos h1]
        exact ih (some c)
      · rw [mergeLoop, if_neg h1, List.chain'_cons']
        exact ⟨fun y _ => Or.inl (by omega), ih none⟩
    | some p =>
      by_cases hm : (content p ++ "\n\n" ++ content c).length ≤ maxSize
      · by_cases h2 : (content (mk p c)).length < minSize
        · rw [mergeLoop, if_pos hm, if_pos h2]
          exact ih (some (mk p c))
        · rw [mergeLoop, if_pos hm, if_neg h2, List.chain'_cons']
          exact ⟨fun y _ => Or.inl (by omega), ih none⟩
      · rw [mergeLoop, if_neg hm]
        by_cases h1 : (content c).length < minSize
        · rw [if_pos h1, List.chain'_cons']
          constructor
          · intro y hy
            obtain ⟨x, xs, hx, hlen⟩ :=
              mergeLoop_pending_head content mk Hmk minSize maxSize cs c
            rw [hx] at hy
            simp only [List.head?_cons, Option.mem_def, Option.some.injEq] at hy
            subst hy
            right
            simp only [String.length_append] at hm ⊢
            omega
          · exact ih (some c)
        · rw [if_neg h1, List.chain'_cons']
          constructor
          · intro y hy
            simp only [List.head?_cons, Option.mem_def, Option.some.injEq] at hy
            subst hy
            right
            omega
          · rw [List.chain'_cons']
            exact ⟨fun y _ => Or.inl (by omega), ih none⟩

/-- C1 (amended): after the Merge Pass, every output chunk's content length
is ≥ `minSize`, or it is the final output chunk, or it is an undersized chunk
that was flushed unmerged because appending the next output chunk (with the
blank-line separator) would exceed `maxSize` — stated for the guideline merge
with arbitrary thresholds and for the law merge with its fixed 100/2000
thresholds, as the adjacent-pair condition on the output contents. -/
theorem merge_min_size_or_overflow :
    (∀ (chunks : List GuidelineChunk) (minSize maxSize : Nat),
        List.Chain' (fun a b => minSize ≤ a.length ∨ maxSize < (a ++ "\n\n" ++ b).length)
          ((Guideline.mergeSmallChunks chunks minSize maxSize).map (fun c => c.content))) ∧
    (∀ chunks : List LawChunk,
        List.Chain' (fun a b => 100 ≤ a.length ∨ 2000 < (a ++ "\n\n" ++ b).length)
          ((Law.mergeSmallChunks chunks).map (fun c => c.content))) := by
  constructor
  · intro chunks minSize maxSize
    unfold Guideline.mergeSmallChunks
    by_cases hne : chunks = []
    · simp [hne]
    · rw [if_neg hne, renumberFrom_map_content, List.chain'_map]
      exact mergeLoop_chain (fun c => c.content) Guideline.mkMerged
        (fun p c => rfl) minSize maxSize chunks none
  · intro chunks
    unfold Law.mergeSmallChunks
    by_cases hne : chunks = []
    · simp [hne]
    · rw [if_neg hne, List.chain'_map]
      exact mergeLoop_chain (fun c => c.content) Law.mkMerged
        (fun p c => rfl) Law.MIN_CHUNK_SIZE Law.MAX_CHUNK_SIZE chunks none

/-- C1 (counterexample): with minSize 3 / maxSize 5, inputs of 2 and 4
characters produce the output `[2-char chunk, 4-char chunk]` — the 2-character
chunk is undersized yet is *not* the final trailing chunk, because the merge
would have exceeded `maxSize` and the pending chunk was flushed unmerged into
the middle of the output. -/
theorem merge_min_size_counterexample :
    ¬(∀ i : Fin (Guideline.mergeSmallChunks [gChunkA, gChunkB] 3 5).length,
        3 ≤ ((Guideline.mergeSmallChunks [gChunkA, gChunkB] 3 5).get i).content.length ∨
        (i : Nat) + 1 = (Guideline.mergeSmallChunks [gChunkA, gChunkB] 3 5).length) := by
  decide

/-- Blank-line join of a list of contents, as the Merge Pass concatenates
the members of one merged group. -/
def joinSep : List String → String
  | [] => ""
  | [x] => x
  | x :: xs => x ++ "\n\n" ++ joinSep xs

/-- Appending one more member to a non-empty group extends the join by one
separator and the member. -/
theorem joinSep_append_single (l : List String) (x : String) (h : l ≠ []) :
    joinSep (l ++ [x]) = joinSep l ++ "\n\n" ++ x := by
  induction l with
  | nil => exact absurd rfl h
  | cons a as ih =>
    cases as with
    | nil => rfl
    | cons b bs =>
      have ih' := ih (by simp)
      show a ++ "\n\n" ++ joinSep ((b :: bs) ++ [x]) =
        (a ++ "\n\n" ++ joinSep (b :: bs)) ++ "\n\n" ++ x
      rw [ih', ← String.append_assoc, ← String.append_assoc]

/-- Merge-loop invariant behind C9: the output contents are exactly the
blank-line joins of a partition of the input sequence into consecutive
non-empty groups; `g` is the group of original chunks already folded into the
pending chunk. -/
theorem mergeLoop_groups {α : Type} (content : α → String) (mk : α → α → α)
    (Hmk : ∀ p c, content (mk p c) = content p ++ "\n\n" ++ content c)
    (minSize maxSize : Nat) :
    ∀ (cs : List α) (pend : Option α) (g : List α),
      (pend = none → g = []) →
      (∀ p, pend = some p → g ≠ [] ∧ content p = joinSep (g.map content)) →
      ∃ groups : List (List α),
        (∀ h ∈ groups, h ≠ []) ∧
        groups.flatten = g ++ cs ∧
        (mergeLoop content mk minSize maxSize cs pend).map content =
          groups.map (fun h => joinSep (h.map content)) := by
  intro cs
  induction cs with
  | nil =>
    intro pend g hnone hsome
    cases pend with
    | none => exact ⟨[], by simp, by simp [hnone rfl], by simp [mergeLoop]⟩
    | some p =>
      obtain ⟨hg, hp⟩ := hsome p rfl
      exact ⟨[g], by simpa using hg, by simp, by simp [mergeLoop, hp]⟩
  | cons c cs ih =>
    intro pend g hnone hsome
    cases pend with
    | none =>
      have hg : g = [] := hnone rfl
      subst hg
      by_cases h1 : (content c).length < minSize
      · obtain ⟨groups, hne, hflat, hmap⟩ := ih (some c) [c] (by simp)
          (fun q hq => by
            injection hq with h
            subst h
            exact ⟨by simp, rfl⟩)
        refine ⟨groups, hne, by simpa using hflat, ?_⟩
        rw [mergeLoop, if_pos h1]
        exact hmap
      · obtain ⟨groups, hne, hflat, hmap⟩ := ih none [] (fun _ => rfl) (by simp)
        refine ⟨[c] :: groups, ?_, ?_, ?_⟩
        · intro h hh
          rcases List.mem_cons.1 hh with h' | h'
          · subst h'; simp
          · exact hne _ h'
        · simpa using hflat
        · rw [mergeLoop, if_neg h1]
          simpa [joinSep] using hmap
    | some p =>
      obtain ⟨hg, hp⟩ := hsome p rfl
      by_cases hm : (content p ++ "\n\n" ++ content c).length ≤ maxSize
      · have hmerged : content (mk p c) = joinSep ((g ++ [c]).map content) := by
          rw [Hmk, hp, List.map_append]
          exact (joinSep_append_single _ _ (by simpa using hg)).symm
        by_cases h2 : (content (mk p c)).length < minSize
        · obtain ⟨groups, hne, hflat, hmap⟩ := ih (some (mk p c)) (g ++ [c]) (by simp)
            (fun q hq => by
              injection hq with h
              subst h
              exact ⟨by simp, hmerged⟩)
          refine ⟨groups, hne, ?_, ?_⟩
          · rw [hflat]
            simp
          · rw [mergeLoop, if_pos hm, if_pos h2]
            exact hmap
        · obtain ⟨groups, hne, hflat, hmap⟩ := ih none [] (fun _ => rfl) (by simp)
          refine ⟨(g ++ [c]) :: groups, ?_, ?_, ?_⟩
          · intro h hh
            rcases List.mem_cons.1 hh with h' | h'
            · subst h'; simp
            · exact hne _ h'
          · simp [hflat]
          · rw [mergeLoop, if_pos hm, if_neg h2]
            simpa [hmerged] using hmap
      · by_cases h1 : (content c).length < minSize
        · obtain ⟨groups, hne, hflat, hmap⟩ := ih (some c) [c] (by simp)
            (fun q hq => by
              injection hq with h
              subst h
              exact ⟨by simp, rfl⟩)
          refine ⟨g :: groups, ?_, ?_, ?_⟩
          · intro h hh
            rcases List.mem_cons.1 hh with h' | h'
            · subst h'; exact hg
            · exact hne _ h'
          · simp [hflat]
          · rw [mergeLoop, if_neg hm, if_pos h1]
            simpa [hp] using hmap
        · obtain ⟨groups, hne, hflat, hmap⟩ := ih none [] (fun _ => rfl) (by simp)
          refine ⟨g :: [c] :: groups, ?_, ?_, ?_⟩
          · intro h hh
            rcases List.mem_cons.1 hh with h' | h'
            · subst h'; exact hg
            · rcases List.mem_cons.1 h' with h'' | h''
              · subst h''; simp
              · exact hne _ h''
          · simpa using hflat
          · rw [mergeLoop, if_neg hm, if_neg h1]
            simpa [hp, joinSep] using hmap

/-- C9: the Merge Pass never drops, truncates, or reorders chunk text — both
for the guideline merge (arbitrary thresholds) and the law merge, the output
contents are exactly the blank-line joins of a partition of the input
sequence into consecutive non-empty groups, so the concatenation of the
output contents is the concatenation of the input contents in order,
differing only by the inserted `"\n\n"` separators between merged
neighbors. -/
theorem merge_preserves_content :
    (∀ (chunks : List GuidelineChunk) (minSize maxSize : Nat),
        ∃ groups : List (List GuidelineChunk),
          (∀ g ∈ groups, g ≠ []) ∧
          groups.flatten = chunks ∧
          (Guideline.mergeSmallChunks chunks minSize maxSize).map (fun c => c.content) =
            groups.map (fun g => joinSep (g.map (fun c => c.content)))) ∧
    (∀ chunks : List LawChunk,
        ∃ groups : List (List LawChunk),
          (∀ g ∈ groups, g ≠ []) ∧
          groups.flatten = chunks ∧
          (Law.mergeSmallChunks chunks).map (fun c => c.content) =
            groups.map (fun g => joinSep (g.map (fun c => c.content)))) := by
  constructor
  · intro chunks minSize maxSize
    by_cases hne : chunks = []
    · exact ⟨[], by simp, by simp [hne], by simp [hne, Guideline.mergeSmallChunks]⟩
    · obtain ⟨groups, hg, hflat, hmap⟩ :=
        mergeLoop_groups (fun c => c.content) Guideline.mkMerged (fun p c => rfl)
          minSize maxSize chunks none [] (fun _ => rfl) (by simp)
      refine ⟨groups, hg, by simpa using hflat, ?_⟩
      rw [Guideline.mergeSmallChunks, if_neg hne, renumberFrom_map_content]
      exact hmap
  · intro chunks
    by_cases hne : chunks = []
    · exact ⟨[], by simp, by simp [hne], by simp [hne, Law.mergeSmallChunks]⟩
    · obtain ⟨groups, hg, hflat, hmap⟩ :=
        mergeLoop_groups (fun c => c.content) Law.mkMerged (fun p c => rfl)
          Law.MIN_CHUNK_SIZE Law.MAX_CHUNK_SIZE chunks none [] (fun _ => rfl) (by simp)
      refine ⟨groups, hg, by simpa using hflat, ?_⟩
      rw [Law.mergeSmallChunks, if_neg hne]
      exact hmap

/-- Concrete document for the C3 counterexample: a 50-character preamble
section followed by a bracket-heading section whose only chunk (heading plus
1000-character body) is 1005 characters long. -/
def guidelineCexDoc : PdfDocument :=
  { filename := "guide.pdf"
    title := none
    text := String.mk (List.replicate 50 'あ') ++ "\n【X】\n" ++
      String.mk (List.replicate 1000 'い') }

set_option maxRecDepth 100000 in
/-- C3 (counterexample): with default options the guideline chunker's merge
pass runs with maxSize = `opts.chunkSize` = 1000, not 2000.  On
`guidelineCexDoc` the code flushes the 50-character chunk unmerged (the merge
would be 1057 > 1000 characters) and outputs two chunks, while the claimed
100/2000 thresholds would merge the pair into one 1057-character chunk. -/
theorem chunkGuideline_max_threshold_counterexample :
    chunkGuideline guidelineCexDoc {} ≠
      (buildChunks guidelineCexDoc {}).map
        (fun cks => Guideline.mergeSmallChunks cks 100 2000) := by
  decide

/-- The `digitChar` always yields a decimal digit character. -/
theorem isDigitChar_digitChar (k : Nat) : isDigitChar (digitChar k) = true := by
  match k with
  | 0 | 1 | 2 | 3 | 4 | 5 | 6 | 7 | 8 | 9 => rfl
  | n + 10 => rfl

/-- With enough fuel, the digit list of a number is never empty. -/
theorem natCharsAux_ne_nil (fuel n : Nat) (h : n < fuel) : natCharsAux fuel n ≠ [] := by
  cases fuel with
  | zero => omega
  | succ f =>
    rw [natCharsAux]
    by_cases h10 : n < 10
    · simp [h10]
    · simp [h10]

/-- Every character in a digit list is a decimal digit. -/
theorem natCharsAux_digits (fuel n : Nat) :
    ∀ c ∈ natCharsAux fuel n, isDigitChar c = true := by
  induction fuel generalizing n with
  | zero => simp [natCharsAux]
  | succ f ih =>
    intro c hc
    rw [natCharsAux] at hc
    by_cases h10 : n < 10
    · rw [if_pos h10] at hc
      simp at hc
      subst hc
      exact isDigitChar_digitChar n
    · rw [if_neg h10] at hc
      rcases List.mem_append.1 hc with h' | h'
      · exact ih _ c h'
      · simp at h'
        subst h'
        exact isDigitChar_digitChar _

/-- The end-anchored pattern `-chunk\d+$` matches the suffix
`-chunk` ++ digits of `k`. -/
theorem chunkSuffixAt_shape (k : Nat) :
    chunkSuffixAt ('-' :: 'c' :: 'h' :: 'u' :: 'n' :: 'k' :: natChars k) = true := by
  show (!(natChars k).isEmpty && (natChars k).all isDigitChar) = true
  have h1 : natChars k ≠ [] := natCharsAux_ne_nil (k + 1) k (by omega)
  rw [Bool.and_eq_true]
  constructor
  · simp [h1]
  · rw [List.all_eq_true]
    exact natCharsAux_digits (k + 1) k

/-- Character-level shape of a freshly built chunk id. -/
theorem toList_chunkId (f : String) (k : Nat) :
    (f ++ "-chunk" ++ natToString k).toList =
      f.toList ++ ('-' :: 'c' :: 'h' :: 'u' :: 'n' :: 'k' :: natChars k) := by
  show (f ++ "-chunk" ++ natToString k).data =
    f.data ++ ('-' :: 'c' :: 'h' :: 'u' :: 'n' :: 'k' :: natChars k)
  rw [String.data_append, String.data_append, List.append_assoc]
  rfl

/-- A freshly built chunk id contains a `-chunk` ++ digits suffix match. -/
theorem findChunkSuffix_isSome_of_shape (f : String) (k : Nat) :
    (findChunkSuffix (f ++ "-chunk" ++ natToString k).toList).isSome = true := by
  unfold findChunkSuffix
  rw [List.find?_isSome]
  refine ⟨f.toList.length, List.mem_range.2 ?_, ?_⟩
  · rw [toList_chunkId]
    simp
  · rw [toList_chunkId, List.drop_left]
    exact chunkSuffixAt_shape k

/-- When the pattern matches somewhere, the replaced id ends with the fresh
`-chunk<idx>` suffix. -/
theorem replaceChunkSuffix_isSome (s : String) (idx : Nat)
    (h : (findChunkSuffix s.toList).isSome = true) :
    ∃ stem, replaceChunkSuffix s idx = stem ++ "-chunk" ++ natToString idx := by
  unfold replaceChunkSuffix
  obtain ⟨i, hi⟩ := Option.isSome_iff_exists.1 h
  rw [hi]
  exact ⟨String.mk (s.toList.take i), rfl⟩

/-- The guideline merge loop only emits ids of input chunks (a merged chunk
keeps the id of its second constituent via the `{...chunk}` spread), so any
property of all input ids holds for all output ids. -/
theorem mergeLoopG_id (P : String → Prop) (minSize maxSize : Nat) :
    ∀ (cs : List GuidelineChunk) (pend : Option GuidelineChunk),
      (∀ c ∈ cs, P c.id) → (∀ p, pend = some p → P p.id) →
      ∀ x ∈ mergeLoop (fun c => c.content) Guideline.mkMerged minSize maxSize cs pend,
        P x.id := by
  intro cs
  induction cs with
  | nil =>
    intro pend hcs hpend x hx
    cases pend with
    | none => simp [mergeLoop] at hx
    | some p =>
      simp [mergeLoop] at hx
      subst hx
      exact hpend _ rfl
  | cons c cs ih =>
    intro pend hcs hpend x hx
    have hc : P c.id := hcs c (by simp)
    have hcs' : ∀ y ∈ cs, P y.id := fun y hy => hcs y (by simp [hy])
    cases pend with
    | none =>
      by_cases h1 : c.content.length < minSize
      · rw [mergeLoop, if_pos h1] at hx
        exact ih (some c) hcs' (fun q hq => Option.some.inj hq ▸ hc) x hx
      · rw [mergeLoop, if_neg h1] at hx
        rcases List.mem_cons.1 hx with h | h
        · subst h; exact hc
        · exact ih none hcs' (by simp) x h
    | some p =>
      by_cases hm : (p.content ++ "\n\n" ++ c.content).length ≤ maxSize
      · have hmkid : P (Guideline.mkMerged p c).id := hc
        by_cases h2 : (Guideline.mkMerged p c).content.length < minSize
        · rw [mergeLoop, if_pos hm, if_pos h2] at hx
          exact ih (some (Guideline.mkMerged p c)) hcs'
            (fun q hq => Option.some.inj hq ▸ hmkid) x hx
        · rw [mergeLoop, if_pos hm, if_neg h2] at hx
          rcases List.mem_cons.1 hx with h | h
          · subst h; exact hmkid
          · exact ih none hcs' (by simp) x h
      · rw [mergeLoop, if_neg hm] at hx
        rcases List.mem_cons.1 hx with h | h
        · subst h; exact hpend _ rfl
        · by_cases h1 : c.content.length < minSize
          · rw [if_pos h1] at h
            exact ih (some c) hcs' (fun q hq => Option.some.inj hq ▸ hc) x h
          · rw [if_neg h1] at h
            rcases List.mem_cons.1 h with h' | h'
            · subst h'; exact hc
            · exact ih none hcs' (by simp) x h'

/-- Every chunk built by the per-section piece loop carries a fresh id of the
form `<filename>-chunk<k>`. -/
theorem buildPieces_ids (f : String) (t st : Option String) :
    ∀ (pieces : List String) (idx : Nat) (c : GuidelineChunk),
      c ∈ (buildPieces f t st pieces idx).1 →
      ∃ k, c.id = f ++ "-chunk" ++ natToString k := by
  intro pieces
  induction pieces with
  | nil =>
    intro idx c hc
    simp [buildPieces] at hc
  | cons piece rest ih =>
    intro idx c hc
    simp only [buildPieces] at hc
    by_cases hp : jsTrim piece = ""
    · rw [if_pos hp] at hc
      exact ih idx c hc
    · rw [if_neg hp] at hc
      simp only [List.mem_cons] at hc
      rcases hc with h | h
      · exact ⟨idx, by rw [h]⟩
      · exact ih (idx + 1) c h

/-- Every chunk built by the section loop carries a fresh id of the form
`<filename>-chunk<k>`. -/
theorem buildSections_ids (f : String) (t : Option String) (cs co : Nat) :
    ∀ (ss : List GSection) (idx : Nat) (out : List GuidelineChunk),
      buildSections f t cs co ss idx = some out →
      ∀ c ∈ out, ∃ k, c.id = f ++ "-chunk" ++ natToString k := by
  intro ss
  induction ss with
  | nil =>
    intro idx out h c hc
    rw [buildSections] at h
    cases h
    simp at hc
  | cons s ss ih =>
    intro idx out h c hc
    rw [buildSections] at h
    cases hsw : splitWithOverlap s.content cs co with
    | none => rw [hsw] at h; cases h
    | some pieces =>
      rw [hsw] at h
      simp only at h
      cases hbs : buildSections f t cs co ss (buildPieces f t s.title pieces idx).2 with
      | none => rw [hbs] at h; cases h
      | some rest =>
        rw [hbs, Option.map_some'] at h
        replace h := Option.some.inj h
        rw [← h] at hc
        rcases List.mem_append.1 hc with h' | h'
        · exact buildPieces_ids f t s.title pieces idx c h'
        · exact ih _ rest hbs c h'

/-- The renumbering step, elementwise: the chunk at output position `j`
is the chunk at input position `j` with `chunkIndex` set to `i0 + j` and the
id suffix rewritten to `-chunk<i0 + j>`. -/
theorem renumberFrom_getElem? (i0 : Nat) (l : List GuidelineChunk) (j : Nat) :
    (Guideline.renumberFrom i0 l)[j]? = (l[j]?).map (fun c =>
      { c with
        id := replaceChunkSuffix c.id (i0 + j)
        metadata := { c.metadata with chunkIndex := i0 + j } }) := by
  induction l generalizing i0 j with
  | nil => simp [Guideline.renumberFrom]
  | cons c cs ih =>
    cases j with
    | zero => simp [Guideline.renumberFrom]
    | succ j =>
      rw [Guideline.renumberFrom, List.getElem?_cons_succ, ih (i0 + 1) j,
        List.getElem?_cons_succ]
      have harith : i0 + 1 + j = i0 + (j + 1) := by omega
      rw [harith]

/-- C3 (amended): `chunkGuideline` runs the shared Merge Pass with minSize
100 but with maxSize equal to `opts.chunkSize` (default 1000) — not the law
chunker's 2000 — and then renumbers `chunkIndex` sequentially from 0 over the
final sequence, rewriting each chunk's id suffix to `-chunk<new index>`. -/
theorem chunkGuideline_merge_renumber :
    (∀ (doc : PdfDocument) (options : GuidelineChunkerOptions),
        chunkGuideline doc options = (buildChunks doc options).map
          (fun cks => Guideline.mergeSmallChunks cks 100 (resolvedChunkSize options))) ∧
    (∀ (chunks : List GuidelineChunk) (minSize maxSize j : Nat) (c : GuidelineChunk),
        (Guideline.mergeSmallChunks chunks minSize maxSize)[j]? = some c →
        c.metadata.chunkIndex = j) ∧
    (∀ (doc : PdfDocument) (options : GuidelineChunkerOptions)
        (out : List GuidelineChunk),
        chunkGuideline doc options = some out →
        ∀ (j : Nat) (c : GuidelineChunk), out[j]? = some c →
        ∃ stem, c.id = stem ++ "-chunk" ++ natToString j) := by
  refine ⟨fun doc options => rfl, ?_, ?_⟩
  · intro chunks minSize maxSize j c hc
    unfold Guideline.mergeSmallChunks at hc
    by_cases hne : chunks = []
    · rw [if_pos hne] at hc
      simp at hc
    · rw [if_neg hne, renumberFrom_getElem?] at hc
      cases hy : (mergeLoop (fun c => c.content) Guideline.mkMerged minSize maxSize
          chunks none)[j]? with
      | none => rw [hy] at hc; cases hc
      | some y =>
        rw [hy, Option.map_some'] at hc
        replace hc := Option.some.inj hc
        rw [← hc]
        simp
  · intro doc options out hout j c hc
    unfold chunkGuideline at hout
    cases hbc : buildChunks doc options with
    | none => rw [hbc] at hout; cases hout
    | some cks =>
      rw [hbc, Option.map_some'] at hout
      replace hout := Option.some.inj hout
      rw [← hout] at hc
      unfold Guideline.mergeSmallChunks at hc
      by_cases hne : cks = []
      · rw [if_pos hne] at hc
        simp at hc
      · rw [if_neg hne, renumberFrom_getElem?] at hc
        cases hy : (mergeLoop (fun c => c.content) Guideline.mkMerged
            Guideline.MIN_CHUNK_SIZE (resolvedChunkSize options) cks none)[j]? with
        | none => rw [hy] at hc; cases hc
        | some y =>
          rw [hy, Option.map_some'] at hc
          replace hc := Option.some.inj hc
          have hymem : y ∈ mergeLoop (fun c => c.content) Guideline.mkMerged
              Guideline.MIN_CHUNK_SIZE (resolvedChunkSize options) cks none :=
            List.getElem?_mem hy
          have hyid : (findChunkSuffix y.id.toList).isSome = true := by
            refine mergeLoopG_id (fun s => (findChunkSuffix s.toList).isSome = true)
              Guideline.MIN_CHUNK_SIZE (resolvedChunkSize options) cks none
              ?_ (by simp) y hymem
            intro c' hc'
            obtain ⟨k, hk⟩ := buildSections_ids doc.filename doc.title
              (resolvedChunkSize options) (resolvedChunkOverlap options)
              (splitIntoSections doc.text) 0 cks hbc c' hc'
            rw [hk]
            exact findChunkSuffix_isSome_of_shape doc.filename k
          obtain ⟨stem, hstem⟩ := replaceChunkSuffix_isSome y.id (0 + j) hyid
          refine ⟨stem, ?_⟩
          rw [← hc]
          simpa using hstem

/-- Witness document for `chunkGuideline_merge_renumber`. -/
def guidelineWitnessDoc : PdfDocument :=
  { filename := "g", title := none, text := "【X】\nhello" }

/-- Witness output for `chunkGuideline_merge_renumber`. -/
def guidelineWitnessOut : List GuidelineChunk :=
  [{ id := "g-chunk0"
     content := "【X】\n\nhello"
     metadata :=
       { filename := "g", title := none, pageNumber := none,
         sectionTitle := some "【X】", chunkIndex := 0 } }]

/-- Closed instance of `chunkGuideline_merge_renumber` on a one-section
document: the chunker emits one chunk, with `chunkIndex = 0` and an id ending
in `-chunk0`. -/
theorem chunkGuideline_merge_renumber_witness :
    chunkGuideline guidelineWitnessDoc {} = some guidelineWitnessOut ∧
    guidelineWitnessOut[0]? = some (guidelineWitnessOut.get ⟨0, by decide⟩) ∧
    (∃ stem, (guidelineWitnessOut.get ⟨0, by decide⟩).id =
      stem ++ "-chunk" ++ natToString 0) :=
  ⟨by decide, by decide,
   chunkGuideline_merge_renumber.2.2 guidelineWitnessDoc {} guidelineWitnessOut
     (by decide) 0 (guidelineWitnessOut.get ⟨0, by decide⟩) (by decide)⟩

/-- A matched "last full stop" position never exceeds the search bound
(JS `lastIndexOf` searches backwards from the given position). -/
theorem jsLastIndexOfPeriod_le (l : List Char) (pos i : Nat)
    (h : jsLastIndexOfPeriod l pos = some i) : i ≤ pos := by
  have hm := List.mem_of_find?_eq_some h
  rw [List.mem_reverse, List.mem_range] at hm
  omega

/-- The window end of one iteration either extends the full `chunkSize`, or
was snapped back to a full stop strictly past half the window. -/
theorem nextEnd_lower_bound (text : List Char) (chunkSize start : Nat) :
    start + chunkSize / 2 + 2 ≤ nextEnd text chunkSize start ∨
    nextEnd text chunkSize start = start + chunkSize := by
  unfold nextEnd
  by_cases h0 : start + chunkSize < text.length
  · rw [if_pos h0]
    cases hlp : jsLastIndexOfPeriod text (start + chunkSize) with
    | none => right; rfl
    | some lp =>
      by_cases hsnap : start + chunkSize / 2 < lp
      · left
        simp only [hsnap, if_true]
        omega
      · right
        simp only [hsnap, if_false]
  · rw [if_neg h0]
    right
    rfl

/-- When the overlap is less than half the window, each loop iteration
strictly advances `start`, so the loop terminates within
`text.length - start` further iterations. -/
theorem splitGo_isSome (text : List Char) (chunkSize chunkOverlap : Nat)
    (hco : chunkOverlap + chunkOverlap < chunkSize) :
    ∀ (fuel start : Nat) (acc : List String),
      text.length - start < fuel →
      (splitGo text chunkSize chunkOverlap fuel start acc).isSome = true := by
  intro fuel
  induction fuel with
  | zero =>
    intro start acc hfuel
    omega
  | succ f ih =>
    intro start acc hfuel
    rw [splitGo]
    by_cases hs : start < text.length
    · rw [if_pos hs]
      by_cases hb : text.length ≤ nextEnd text chunkSize start
      · rw [if_pos hb]
        rfl
      · rw [if_neg hb]
        apply ih
        rcases nextEnd_lower_bound text chunkSize start with h | h <;> omega
    · rw [if_neg hs]
      rfl

/-- C8 (amended): the sliding-window split terminates whenever the overlap
is less than half the window size — in particular for the default options
(chunkSize 1000, chunkOverlap 200) — because each iteration advances `start`
even when the cut point snaps back to a sentence boundary past half the
window; it does *not* terminate for every option pair. -/
theorem splitWithOverlap_terminates (text : String) (chunkSize chunkOverlap : Nat)
    (hco : chunkOverlap + chunkOverlap < chunkSize) :
    (splitWithOverlap text chunkSize chunkOverlap).isSome = true := by
  unfold splitWithOverlap
  by_cases hlen : text.length ≤ chunkSize
  · rw [if_pos hlen]
    rfl
  · rw [if_neg hlen]
    exact splitGo_isSome text.toList chunkSize chunkOverlap hco
      (text.length + 1) 0 []
      (by
        have hl : text.toList.length = text.length := rfl
        omega)

/-- Closed instance of `splitWithOverlap_terminates`: a 1200-character text
with the default window 1000 / overlap 200 splits successfully. -/
theorem splitWithOverlap_terminates_witness :
    200 + 200 < 1000 ∧
    (splitWithOverlap (String.mk (List.replicate 1200 'あ')) 1000 200).isSome = true :=
  ⟨by decide, splitWithOverlap_terminates (String.mk (List.replicate 1200 'あ'))
    1000 200 (by decide)⟩

/-- C8 (counterexample): with chunkOverlap = chunkSize = 5 on the 6-character
text `"aaaaaa"`, the window never advances (`start` returns to 0 every
iteration), so the JS loop runs forever: the fuel-indexed loop returns `none`
for *every* fuel, and in particular `splitWithOverlap` does not terminate —
the split does not terminate for arbitrary `chunkSize`/`chunkOverlap` option
values. -/
theorem splitWithOverlap_diverges_counterexample :
    splitWithOverlap "aaaaaa" 5 5 = none ∧
    ∀ (fuel : Nat) (acc : List String),
      splitGo "aaaaaa".toList 5 5 fuel 0 acc = none := by
  constructor
  · decide
  · intro fuel
    induction fuel with
    | zero => intro acc; rfl
    | succ f ih =>
      intro acc
      rw [splitGo, if_pos (by decide), if_neg (by decide)]
      exact ih _

/-- Hex digits render and parse consistently for values below 16. -/
theorem hexVal_hexDigitChar : ∀ x, x < 16 → hexVal (hexDigitChar x) = some x := by
  decide

/-- Plain characters (not quote, backslash, or control) parse as themselves. -/
theorem parseStrBodyF_plain (fuel : Nat) (c : Char) (rest : List Char)
    (h1 : c ≠ '"') (h2 : c ≠ '\\') (h3 : ¬c.toNat < 32) :
    parseStrBodyF (fuel + 1) (c :: rest) =
      (parseStrBodyF fuel rest).map (fun st => (c :: st.1, st.2)) := by
  rw [parseStrBodyF]
  simp only [if_neg h1, if_neg h2, if_neg h3]

/-- A decodable escape sequence parses to its decoded character. -/
theorem parseStrBodyF_escape (fuel : Nat) (rest : List Char) (d : Char) (r : List Char)
    (h : decodeEscape rest = some (d, r)) :
    parseStrBodyF (fuel + 1) ('\\' :: rest) =
      (parseStrBodyF fuel r).map (fun st => (d :: st.1, st.2)) := by
  rw [parseStrBodyF, if_neg (by decide), if_pos rfl]
  simp only [h]

/-- Short escapes decode back to the escaped character. -/
theorem decodeEscape_short (e d : Char) (r : List Char) (h : shortEscape e = some d) :
    decodeEscape (e :: r) = some (d, r) := by
  rw [decodeEscape]
  simp only [h]

/-- The `\u00XX` escapes decode back to the control character. -/
theorem decodeEscape_unicode (n : Nat) (r : List Char) (hn : n < 32) :
    decodeEscape ('u' :: '0' :: '0' :: hexDigitChar (n / 16) ::
        hexDigitChar (n % 16) :: r) = some (Char.ofNat n, r) := by
  rw [decodeEscape]
  have hse : shortEscape 'u' = none := by decide
  have hd0 : hexVal '0' = some 0 := by decide
  have hd1 : hexVal (hexDigitChar (n / 16)) = some (n / 16) :=
    hexVal_hexDigitChar _ (by omega)
  have hd2 : hexVal (hexDigitChar (n % 16)) = some (n % 16) :=
    hexVal_hexDigitChar _ (by omega)
  simp only [hse, if_pos, parseHex4, hd0, hd1, hd2]
  have harith : 0 * 4096 + 0 * 256 + n / 16 * 16 + n % 16 = n := by omega
  rw [harith]

/-- A JSON-escaped string body followed by the closing quote parses back to
the original characters, with any fuel beyond the decoded length. -/
theorem parseStrBodyF_roundtrip : ∀ (s : List Char) (fuel : Nat) (rest : List Char),
    s.length < fuel →
    parseStrBodyF fuel (escChars s ++ '"' :: rest) = some (s, rest) := by
  intro s
  induction s with
  | nil =>
    intro fuel rest hf
    cases fuel with
    | zero => omega
    | succ f =>
      show parseStrBodyF (f + 1) ('"' :: rest) = some ([], rest)
      rw [parseStrBodyF, if_pos rfl]
  | cons c cs ih =>
    intro fuel rest hf
    cases fuel with
    | zero => omega
    | succ f =>
      have hf' : cs.length < f := by
        simp only [List.length_cons] at hf
        omega
      rw [show escChars (c :: cs) = escChar c ++ escChars cs from rfl,
        List.append_assoc]
      by_cases h1 : c = '"'
      · subst h1
        rw [show escChar '"' = ['\\', '"'] from by decide]
        simp only [List.cons_append, List.nil_append]
        rw [parseStrBodyF_escape f _ _ _ (decodeEscape_short '"' '"' _ (by decide)),
          ih f rest hf', Option.map_some']
      · by_cases h2 : c = '\\'
        · subst h2
          rw [show escChar '\\' = ['\\', '\\'] from by decide]
          simp only [List.cons_append, List.nil_append]
          rw [parseStrBodyF_escape f _ _ _ (decodeEscape_short '\\' '\\' _ (by decide)),
            ih f rest hf', Option.map_some']
        · by_cases hb : c = '\x08'
          · subst hb
            rw [show escChar '\x08' = ['\\', 'b'] from by decide]
            simp only [List.cons_append, List.nil_append]
            rw [parseStrBodyF_escape f _ _ _ (decodeEscape_short 'b' '\x08' _ (by decide)),
              ih f rest hf', Option.map_some']
          · by_cases hfc : c = '\x0c'
            · subst hfc
              rw [show escChar '\x0c' = ['\\', 'f'] from by decide]
              simp only [List.cons_append, List.nil_append]
              rw [parseStrBodyF_escape f _ _ _ (decodeEscape_short 'f' '\x0c' _ (by decide)),
                ih f rest hf', Option.map_some']
            · by_cases hn : c = '\n'
              · subst hn
                rw [show escChar '\n' = ['\\', 'n'] from by decide]
                simp only [List.cons_append, List.nil_append]
                rw [parseStrBodyF_escape f _ _ _ (decodeEscape_short 'n' '\n' _ (by decide)),
                  ih f rest hf', Option.map_some']
              · by_cases hr : c = '\x0d'
                · subst hr
                  rw [show escChar '\x0d' = ['\\', 'r'] from by decide]
                  simp only [List.cons_append, List.nil_append]
                  rw [parseStrBodyF_escape f _ _ _
                    (decodeEscape_short 'r' '\x0d' _ (by decide)),
                    ih f rest hf', Option.map_some']
                · by_cases ht : c = '\t'
                  · subst ht
                    rw [show escChar '\t' = ['\\', 't'] from by decide]
                    simp only [List.cons_append, List.nil_append]
                    rw [parseStrBodyF_escape f _ _ _
                      (decodeEscape_short 't' '\t' _ (by decide)),
                      ih f rest hf', Option.map_some']
                  · by_cases hc32 : c.toNat < 32
                    · have he : escChar c = ['\\', 'u', '0', '0',
                          hexDigitChar (c.toNat / 16), hexDigitChar (c.toNat % 16)] := by
                        simp [escChar, h1, h2, hb, hfc, hn, hr, ht, hc32]
                      rw [he]
                      simp only [List.cons_append, List.nil_append]
                      rw [parseStrBodyF_escape f _ _ _ (decodeEscape_unicode c.toNat _ hc32),
                        ih f rest hf', Option.map_some', Char.ofNat_toNat]
                    · have he : escChar c = [c] := by
                        simp [escChar, h1, h2, hb, hfc, hn, hr, ht, hc32]
                      rw [he]
                      simp only [List.cons_append, List.nil_append]
                      rw [parseStrBodyF_plain f c _ h1 h2 hc32, ih f rest hf',
                        Option.map_some']

/-- Escaping only lengthens a string. -/
theorem escChars_length_ge : ∀ s : List Char, s.length ≤ (escChars s).length := by
  intro s
  induction s with
  | nil => simp [escChars]
  | cons c cs ih =>
    show cs.length + 1 ≤ (escChar c ++ escChars cs).length
    have hc : 1 ≤ (escChar c).length := by
      unfold escChar
      repeat' split
      all_goals simp
    simp only [List.length_append]
    omega

/-- A JSON-escaped string body followed by the closing quote parses back to
the original characters. -/
theorem parseStrBody_roundtrip (s rest : List Char) :
    parseStrBody (escChars s ++ '"' :: rest) = some (s, rest) := by
  unfold parseStrBody
  apply parseStrBodyF_roundtrip
  have := escChars_length_ge s
  simp only [List.length_append, List.length_cons]
  omega

/-- Rebuilding a string from its characters is the identity. -/
theorem strMk_toList (s : String) : String.mk s.toList = s := by
  cases s
  rfl

/-- The `digitChar` of a digit value. -/
theorem digitChar_toNat : ∀ n, n < 10 → (digitChar n).toNat = 48 + n := by
  decide

/-- Folding the decimal digits of `n` over a decimal accumulator recovers
`n` shifted under the accumulator. -/
theorem natCharsAux_foldl : ∀ (fuel n : Nat), n < fuel → ∀ a : Nat,
    (natCharsAux fuel n).foldl (fun x c => x * 10 + (c.toNat - 48)) a =
      a * 10 ^ (natCharsAux fuel n).length + n := by
  intro fuel
  induction fuel with
  | zero => omega
  | succ f ih =>
    intro n hn a
    rw [natCharsAux]
    by_cases h10 : n < 10
    · rw [if_pos h10]
      simp only [List.foldl_cons, List.foldl_nil, List.length_cons, List.length_nil]
      rw [digitChar_toNat n h10]
      norm_num
    · rw [if_neg h10]
      rw [List.foldl_append, ih (n / 10) (by omega) a]
      simp only [List.foldl_cons, List.foldl_nil, List.length_append,
        List.length_cons, List.length_nil]
      rw [digitChar_toNat (n % 10) (by omega), pow_succ, Nat.add_mul, Nat.mul_assoc,
        Nat.add_assoc]
      congr 1
      omega

/-- The decimal digits of `n` parse back to `n`. -/
theorem charsToNat_natChars (n : Nat) : charsToNat (natChars n) = n := by
  unfold charsToNat natChars
  rw [natCharsAux_foldl (n + 1) n (by omega) 0]
  simp

/-- The digit list of `n` is a non-empty list of digit characters. -/
theorem natChars_cons (n : Nat) : ∃ d ds, natChars n = d :: ds ∧
    (∀ c ∈ d :: ds, isDigitChar c = true) := by
  have hne : natChars n ≠ [] := natCharsAux_ne_nil (n + 1) n (by omega)
  cases h : natChars n with
  | nil => exact absurd h hne
  | cons d ds =>
    refine ⟨d, ds, rfl, ?_⟩
    rw [← h]
    exact natCharsAux_digits (n + 1) n

/-- A digit character is not a quote. -/
theorem isDigitChar_ne_quote (c : Char) (h : isDigitChar c = true) : c ≠ '"' := by
  intro heq
  subst heq
  exact absurd h (by decide)

/-- The `takeWhile`/`dropWhile` on a run of satisfying characters followed by a
failing one. -/
theorem takeWhile_all_append (p : Char → Bool) (l : List Char) (r0 : Char)
    (rs : List Char) (hl : ∀ c ∈ l, p c = true) (hr : p r0 = false) :
    (l ++ r0 :: rs).takeWhile p = l ∧ (l ++ r0 :: rs).dropWhile p = r0 :: rs := by
  induction l with
  | nil => simp [List.takeWhile_cons, List.dropWhile_cons, hr]
  | cons x xs ih =>
    have hx : p x = true := hl x (by simp)
    have ih' := ih (fun c hc => hl c (by simp [hc]))
    simp [List.takeWhile_cons, List.dropWhile_cons, hx, ih'.1, ih'.2]

/-- A quoted JSON string parses back as a `JVal.s`. -/
theorem parseVal_str (v : String) (rest : List Char) :
    parseVal ((quoteString v).toList ++ rest) = some (JVal.s v, rest) := by
  have htl : (quoteString v).toList ++ rest =
      '"' :: (escChars v.toList ++ '"' :: rest) := by
    show (quoteString v).data ++ rest = _
    simp [quoteString, String.data_append, List.append_assoc]
  rw [htl, parseVal, if_pos rfl, parseStrBody_roundtrip, Option.map_some',
    strMk_toList]

/-- A decimal JSON number followed by a non-digit parses back as a `JVal.n`. -/
theorem parseVal_nat (n : Nat) (r0 : Char) (rs : List Char)
    (h : isDigitChar r0 = false) :
    parseVal ((natToString n).toList ++ r0 :: rs) = some (JVal.n n, r0 :: rs) := by
  obtain ⟨d, ds, hds, hall⟩ := natChars_cons n
  have htl : (natToString n).toList = natChars n := rfl
  rw [htl, hds, List.cons_append, parseVal,
    if_neg (isDigitChar_ne_quote d (hall d (by simp))), if_pos (hall d (by simp))]
  obtain ⟨ht, hd2⟩ := takeWhile_all_append isDigitChar (d :: ds) r0 rs hall h
  rw [← List.cons_append, ht, hd2, ← hds, charsToNat_natChars]


theorem parseField_encoded (k : String) (v : JVal) (r0 : Char) (rs : List Char)
    (hd : isDigitChar r0 = false) :
    parseField ('"' :: (escChars k.toList ++ '"' ::
        (':' :: ((jvalString v).toList ++ r0 :: rs)))) =
      some ((k, v), r0 :: rs) := by
  show (match parseStrBody (escChars k.toList ++ '"' ::
      (':' :: ((jvalString v).toList ++ r0 :: rs))) with
    | none => none
    | some (k2, r1) =>
      match r1 with
      | ':' :: r2 =>
        match parseVal r2 with
        | none => none
        | some (v2, r3) => some ((String.mk k2, v2), r3)
      | _ => none) = some ((k, v), r0 :: rs)
  rw [parseStrBody_roundtrip]
  show (match parseVal ((jvalString v).toList ++ r0 :: rs) with
    | none => none
    | some (v2, r3) => some ((String.mk k.toList, v2), r3)) = some ((k, v), r0 :: rs)
  cases v with
  | s str =>
    rw [show (jvalString (JVal.s str)).toList = (quoteString str).toList from rfl,
      parseVal_str, strMk_toList]
  | n m =>
    rw [show (jvalString (JVal.n m)).toList = (natToString m).toList from rfl,
      parseVal_nat m r0 rs hd, strMk_toList]

theorem parseFieldsLoop_roundtrip : ∀ (o : JObj) (fuel : Nat) (rest : List Char),
    o ≠ [] → o.length ≤ fuel →
    parseFieldsLoop fuel ((stringifyFields o).toList ++ '\x7d' :: rest) =
      some (o, rest) := by
  intro o
  induction o with
  | nil => intro fuel rest h _; exact absurd rfl h
  | cons kv os ih =>
    intro fuel rest hne hlen
    obtain ⟨k, v⟩ := kv
    cases fuel with
    | zero => simp at hlen
    | succ f =>
      rw [parseFieldsLoop]
      cases os with
      | nil =>
        have htl : (stringifyFields [(k, v)]).toList ++ '\x7d' :: rest =
            '"' :: (escChars k.toList ++ '"' ::
              (':' :: ((jvalString v).toList ++ '\x7d' :: rest))) := by
          show (stringifyFields [(k, v)]).data ++ _ = _
          simp [stringifyFields, quoteString, String.data_append, List.append_assoc]
        rw [htl]
        unfold parseFieldsStep
        rw [parseField_encoded k v '\x7d' rest (by decide)]
        rfl
      | cons kv2 os2 =>
        have htl : (stringifyFields ((k, v) :: kv2 :: os2)).toList ++ '\x7d' :: rest =
            '"' :: (escChars k.toList ++ '"' ::
              (':' :: ((jvalString v).toList ++ ',' ::
                ((stringifyFields (kv2 :: os2)).toList ++ '\x7d' :: rest)))) := by
          show (stringifyFields ((k, v) :: kv2 :: os2)).data ++ _ = _
          simp [stringifyFields, quoteString, String.data_append, List.append_assoc]
        rw [htl]
        unfold parseFieldsStep
        rw [parseField_encoded k v ','
          ((stringifyFields (kv2 :: os2)).toList ++ '\x7d' :: rest) (by decide)]
        show (parseFieldsLoop f
            ((stringifyFields (kv2 :: os2)).toList ++ '\x7d' :: rest)).map
            (fun ot => ((k, v) :: ot.1, ot.2)) = some ((k, v) :: kv2 :: os2, rest)
        rw [ih f rest (by simp) (by simp at hlen ⊢; omega), Option.map_some']

theorem quoteString_data (s : String) :
    (quoteString s).data = '"' :: (escChars s.toList ++ ['"']) := by
  show (("\"" : String) ++ String.mk (escChars s.toList) ++ "\"").data = _
  rw [String.data_append, String.data_append]
  rfl

theorem stringifyFields_length_ge : ∀ o : JObj,
    o.length ≤ (stringifyFields o).toList.length := by
  intro o
  induction o with
  | nil => simp
  | cons kv os ih =>
    obtain ⟨k, v⟩ := kv
    cases os with
    | nil =>
      have h1 : (stringifyFields [(k, v)]).toList =
          (quoteString k).data ++ ':' :: (jvalString v).data := by
        show (stringifyFields [(k, v)]).data = _
        show (quoteString k ++ ":" ++ jvalString v).data = _
        rw [String.data_append, String.data_append, List.append_assoc]
        rfl
      rw [h1, quoteString_data]
      simp
    | cons kv2 os2 =>
      have h1 : (stringifyFields ((k, v) :: kv2 :: os2)).toList =
          (quoteString k).data ++ ':' :: ((jvalString v).data ++
            ',' :: (stringifyFields (kv2 :: os2)).toList) := by
        show (stringifyFields ((k, v) :: kv2 :: os2)).data = _
        show (quoteString k ++ ":" ++ jvalString v ++ "," ++
          stringifyFields (kv2 :: os2)).data = _
        rw [String.data_append, String.data_append, String.data_append,
          String.data_append, List.append_assoc, List.append_assoc,
          List.append_assoc]
        rfl
      rw [h1, quoteString_data]
      simp only [List.length_cons, List.length_append] at ih ⊢
      omega

theorem parseObj_roundtrip (o : JObj) : parseObj (stringifyObj o) = some o := by
  cases o with
  | nil => rfl
  | cons kv os =>
    obtain ⟨k, v⟩ := kv
    have hfd : ∃ T, (stringifyFields ((k, v) :: os)).toList = '"' :: T := by
      cases os with
      | nil =>
        refine ⟨escChars k.toList ++ ['"'] ++ ':' :: (jvalString v).data, ?_⟩
        show (quoteString k ++ ":" ++ jvalString v).data = _
        rw [String.data_append, String.data_append, quoteString_data]
        simp [List.append_assoc]
      | cons kv2 os2 =>
        refine ⟨escChars k.toList ++ ['"'] ++ ':' :: ((jvalString v).data ++
          ',' :: (stringifyFields (kv2 :: os2)).data), ?_⟩
        show (quoteString k ++ ":" ++ jvalString v ++ "," ++
          stringifyFields (kv2 :: os2)).data = _
        rw [String.data_append, String.data_append, String.data_append,
          String.data_append, quoteString_data]
        simp [List.append_assoc]
    obtain ⟨T, hT⟩ := hfd
    unfold parseObj
    have hobj : (stringifyObj ((k, v) :: os)).toList =
        '\x7b' :: ('"' :: (T ++ ['\x7d'])) := by
      show (("\x7b" : String) ++ stringifyFields ((k, v) :: os) ++ "\x7d").data = _
      rw [String.data_append, String.data_append]
      rw [show (stringifyFields ((k, v) :: os)).data = '"' :: T from hT]
      simp
    rw [hobj]
    have harg : '"' :: (T ++ ['\x7d']) =
        (stringifyFields ((k, v) :: os)).toList ++ '\x7d' :: [] := by
      rw [hT]
      simp
    show (match parseFieldsLoop ('"' :: (T ++ ['\x7d'])).length ('"' :: (T ++ ['\x7d'])) with
      | some (o2, []) => some o2
      | _ => none) = some ((k, v) :: os)
    rw [harg]
    rw [parseFieldsLoop_roundtrip ((k, v) :: os) _ [] (by simp) ?_]
    · have hge := stringifyFields_length_ge ((k, v) :: os)
      simp only [List.length_append, List.length_cons, List.length_nil] at hge ⊢
      omega

/-- C7: building a `StoredDocument` row from any chunk (the flattening done
in `addDocuments`) and decoding that row via `parseSearchResult` (with a
numeric `_distance` attached) succeeds and yields back the chunk's original
content, its source, and a decoded metadata record deep-equal (as a
key-value object) to the chunk's original metadata; the score is the raw
distance. -/
theorem storedDocument_roundtrip (chunk : DocumentChunk) (vec : List ℚ) (dist : ℚ) :
    ∃ r : SearchResult,
      parseSearchResult ((toStoredDocument chunk vec).toRow dist) = Except.ok r ∧
      r.content = chunk.text ∧
      r.source = chunk.sourceName ∧
      r.metadata = chunk.metaFields ∧
      r.score = dist := by
  refine ⟨{ id := chunk.cid
            content := chunk.text
            source := chunk.sourceName
            articleNumber := (toStoredDocument chunk vec).articleNumber
            category := (toStoredDocument chunk vec).category
            filename := (toStoredDocument chunk vec).filename
            metadata := chunk.metaFields
            score := dist }, ?_, rfl, rfl, rfl, rfl⟩
  have hval : validateSource chunk.sourceName = Except.ok chunk.sourceName := by
    cases chunk <;> rfl
  unfold parseSearchResult StoredDocument.toRow
  simp only [toStoredDocument, hval, parseObj_roundtrip]

end AdLinter
